import Mathlib

/-!
Astrocache: block integrity and the propose/commit pipeline.

A shallow embedding of the block model (`model/blockchain/block.go`), the chain
state (`model/blockchain/chain.go`), the asymmetric key primitive and the
public form of a key pair (`crypto/rsa.go`) and the commit worker
(`workers/commitworker.go`).

Conventions of the embedding:

* a Go `[]byte` is a `List Nat` of byte values;
* a Go `error` result is an `Option Error` (`none` is the nil error), a
  `(value, error)` result is an `Except Error value`;
* a method that mutates its receiver returns the receiver's new value;
* a pointer that the code compares with `nil` (`prev`, `chain.Proposed`,
  `blockJob.Block`, the notification channels) is an `Option`; the pointer
  fields `Block.Data` and `Block.Signature`, which the code dereferences
  without a test, are embedded as values;
* a channel is named by a number; a send is recorded as an `Event` in the
  order the code performs it. A send on a channel that is not nil is taken to
  complete (its receiver is running); a send on a nil channel never completes;
* the work queue (`WorkerChan` in `Chain`, read as `CommitChan` by the worker)
  is the list of jobs in the order they are dequeued.
-/

namespace Astrocache

/-- A byte slice. -/
abbrev Bytes := List Nat

/-! ## crypto -/

/-- MasterKeyPairKID is the KID for the master node's keyPair (`crypto/rsa.go`). -/
def MasterKeyPairKID : String := "astro.key.masterkeypair"

/-- The fields of `rsa.PublicKey`: the modulus, a `*big.Int` (signed), and the
exponent, an `int`. -/
structure PublicKey where
  N : Int
  E : Int
deriving DecidableEq, Repr

/-- The fields of `rsa.PrivateKey` the embedding needs: the embedded public key
and the private exponent. -/
structure PrivateKey where
  PublicKey : PublicKey
  D : Nat
deriving DecidableEq, Repr

/-- KeyPair stores a private/public pair to represent an AstroCache node. -/
structure KeyPair where
  Private : Option PrivateKey
  Public : PublicKey
  KID : String
deriving DecidableEq, Repr

/-- The encrypted payload container `crypto.Message`, with the fields
`KeyPair.Encrypt` fills in. -/
structure Message where
  Data : Bytes
  KeyType : String
  KID : String
deriving DecidableEq, Repr

/-- The signature container `crypto.Signature`, with the fields `KeyPair.Sign`
fills in. -/
structure Signature where
  Signature : Bytes
  KID : String
deriving DecidableEq, Repr

/-- The library primitives the code calls, taken as parameters:
`sha256` is `crypto/sha256` (a `hash.Hash` whose `Write` never fails),
`signPKCS1v15` is `rsa.SignPKCS1v15` (`none` when it returns an error),
`verifyPKCS1v15` is `rsa.VerifyPKCS1v15` (`true` when it returns a nil error),
`base64URLEncode` is the package's `Base64URLEncode`. -/
structure Crypto where
  sha256 : Bytes → Bytes
  base64URLEncode : Bytes → String
  signPKCS1v15 : PrivateKey → Bytes → Option Bytes
  verifyPKCS1v15 : PublicKey → Bytes → Bytes → Bool

/-- The error values the embedded code builds, one constructor per site;
`wrap` is `errors.Wrap`. -/
inductive Error where
  | signNilPrivateKey
  | rsaSign
  | keyNotFound (kid : String)
  | genesisNonMaster (kid : String)
  | nonGenesisNilPrev
  | idMismatch (id newID : String)
  | verificationFailed
  | proposeNonGenesis (id : String)
  | proposePrevMismatch (prevID tipID : String)
  | loadExisting (n : Nat)
  | nonProposed
  | rsaEncrypt
  | jsonUnmarshal
  | base64Decode
  | wrap (msg : String) (cause : Error)
deriving DecidableEq, Repr

/-- AstroSigVerified is the positive result of a signature verification. -/
def AstroSigVerified : Bool := true

/-- AstroSigUnverified is the negative result of a signature verification. -/
def AstroSigUnverified : Bool := false

/-- Sign creates a DSS with a keyPair (`KeyPair.Sign`). -/
def KeyPair.Sign (cr : Crypto) (akp : KeyPair) (src : Bytes) : Except Error Signature :=
  match akp.Private with
  | none => .error .signNilPrivateKey
  | some priv =>
    let hashed := cr.sha256 src
    match cr.signPKCS1v15 priv hashed with
    | none => .error .rsaSign
    | some sig => .ok { Signature := sig, KID := akp.KID }

/-- Verify verifies src with akp's pubKey and the provided signature
(`KeyPair.Verify`). -/
def KeyPair.Verify (cr : Crypto) (akp : KeyPair) (src : Bytes) (sig : Signature) : Bool :=
  if sig.KID ≠ akp.KID then AstroSigUnverified
  else
    let hashed := cr.sha256 src
    if cr.verifyPKCS1v15 akp.Public hashed sig.Signature = false then AstroSigUnverified
    else AstroSigVerified

/-- Modelled from the spec: the key registry `crypto.KeySet`, whose lookup
`KeyPairWithKID` is not among the sources; "resolve(KID) -> KeyPair | absent".
Nothing is assumed about the KID of the key pair a lookup returns. -/
structure KeySet where
  KeyPairWithKID : String → Option KeyPair

/-! ## crypto/rsa.go: encryption and the public form of a key pair -/

/-- serializablePubKey is a JSON-marshal-able version of rsa.Publickey. -/
structure serializablePubKey where
  N : String
  E : Int
  KID : String
deriving DecidableEq, Repr

/-- The further library and package functions `crypto/rsa.go` calls, taken as
parameters: `jsonMarshal` and `jsonUnmarshal` are `json.Marshal` and
`json.Unmarshal` at the type `serializablePubKey` (`none` when an error is
returned), `base64URLDecode` is the package's `Base64URLDecode`,
`encryptOAEP` is `rsa.EncryptOAEP` with SHA-256, given the random bytes it
draws, and `KeyTypePair` is the package's key-type constant. -/
structure Codec where
  jsonMarshal : serializablePubKey → Bytes
  jsonUnmarshal : Bytes → Option serializablePubKey
  base64URLDecode : String → Option Bytes
  encryptOAEP : Bytes → PublicKey → Bytes → Option Bytes
  KeyTypePair : String

/-- The base-256 digits of `n`, most significant first, put before `acc`;
`fuel` bounds the number of digits. -/
def bigEndian : Nat → Nat → Bytes → Bytes
  | 0, _, acc => acc
  | fuel + 1, n, acc => if n = 0 then acc else bigEndian fuel (n / 256) (n % 256 :: acc)

/-- The method `big.Int.Bytes`: the big-endian bytes of the absolute value. -/
def bigIntBytes (x : Int) : Bytes :=
  bigEndian x.natAbs x.natAbs []

/-- The method `big.Int.SetBytes`: the bytes read as a big-endian unsigned
integer. -/
def bigIntSetBytes (buf : Bytes) : Int :=
  Int.ofNat (buf.foldl (fun acc b => acc * 256 + b) 0)

/-- Encrypt performs rsaOAEP on the input bytes and returns an encrypted
message (`KeyPair.Encrypt`); `rand` is what the call draws from `rand.Reader`. -/
def KeyPair.Encrypt (cd : Codec) (akp : KeyPair) (rand src : Bytes) : Except Error Message :=
  match cd.encryptOAEP rand akp.Public src with
  | none => .error .rsaEncrypt
  | some encData => .ok { Data := encData, KeyType := cd.KeyTypePair, KID := akp.KID }

/-- PubKeyJSON exports the KeyPair's pubKey to JSON using serializablePubKey
(`KeyPair.PubKeyJSON`). -/
def KeyPair.PubKeyJSON (cr : Crypto) (cd : Codec) (akp : KeyPair) : Bytes :=
  let base64N := cr.base64URLEncode (bigIntBytes akp.Public.N)
  let serializable : serializablePubKey := { N := base64N, E := akp.Public.E, KID := akp.KID }
  cd.jsonMarshal serializable

/-- The method `serializablePubKey.deserialize`. -/
def serializablePubKey.deserialize (cd : Codec) (spk : serializablePubKey) :
    Except Error PublicKey :=
  match cd.base64URLDecode spk.N with
  | none => .error .base64Decode
  | some nBytes => .ok { N := bigIntSetBytes nBytes, E := spk.E }

/-- KeyPairFromPubKeyJSON unmarshals and de-serializes a serializablePubKey
from JSON so it can be used to encrypt or validate signatures. -/
def KeyPairFromPubKeyJSON (cd : Codec) (src : Bytes) : Except Error KeyPair :=
  match cd.jsonUnmarshal src with
  | none => .error .jsonUnmarshal
  | some serialized =>
    match serialized.deserialize cd with
    | .error err => .error err
    | .ok pubKey => .ok { Private := none, Public := pubKey, KID := serialized.KID }

/-! ## model/blockchain/block.go -/

/-- The ID of the genesis block. -/
def genesisBlockID : String := "iamthegenesisbutnottheterminator"

/-- Block is the base type for the astrocache blockchain. -/
structure Block where
  ID : String
  Data : Message
  ActionType : String
  Signature : Signature
  PrevID : String
deriving DecidableEq, Repr

/-- Hash computes the sha256 of the block's data (`Block.Hash`). -/
def Block.Hash (cr : Crypto) (b : Block) : Except Error Bytes :=
  .ok (cr.sha256 b.Data.Data)

/-- The method `Block.prepareForCommit`: the result is the receiver after the
call when it returns nil, and the error otherwise (the receiver is then
untouched). -/
def Block.prepareForCommit (cr : Crypto) (b : Block) (sigKey : KeyPair) (prev : Block) :
    Except Error Block :=
  match prev.Hash cr with
  | .error err => .error (.wrap "prepareForCommit failed to prev.Hash" err)
  | .ok prevHash =>
    let signingBody := prevHash ++ b.Data.Data
    match sigKey.Sign cr signingBody with
    | .error err => .error (.wrap "prepareForCommit failed to sigKey.Sign" err)
    | .ok sig =>
      let blockID := cr.base64URLEncode prevHash
      .ok { b with ID := blockID, Signature := sig, PrevID := prev.ID }

/-- The first half of `Block.Verify`: the signing body and the expected ID,
by the genesis case (`prev == nil`) or the normal case. -/
def Block.verifyBody (cr : Crypto) (b : Block) (sigKey : KeyPair) (prev : Option Block) :
    Except Error (Bytes × String) :=
  match prev with
  | none =>
    if sigKey.KID ≠ MasterKeyPairKID then .error (.genesisNonMaster sigKey.KID)
    else if b.ID ≠ genesisBlockID then .error .nonGenesisNilPrev
    else .ok (b.Data.Data, genesisBlockID)
  | some p =>
    match p.Hash cr with
    | .error err => .error (.wrap "Verify failed to prev.Hash" err)
    | .ok prevHash => .ok (prevHash ++ b.Data.Data, cr.base64URLEncode prevHash)

/-- Verify verifies a block's integrity (`Block.Verify`). -/
def Block.Verify (cr : Crypto) (b : Block) (keySet : KeySet) (prev : Option Block) :
    Option Error :=
  match keySet.KeyPairWithKID b.Signature.KID with
  | none => some (.keyNotFound b.Signature.KID)
  | some sigKey =>
    match b.verifyBody cr sigKey prev with
    | .error err => some err
    | .ok (signingBody, newID) =>
      if b.ID ≠ newID then some (.idMismatch b.ID newID)
      else if sigKey.Verify cr signingBody b.Signature = AstroSigUnverified then
        some .verificationFailed
      else none

/-- The method `Block.isPending`. -/
def Block.isPending (b : Block) : Bool :=
  b.PrevID == ""

/-- Modelled from the spec: `Block.IsSameAsBlock`, which the commit worker calls
and which is not among the sources; "two blocks are the same candidate when
ID, PrevID, and Signature all match". -/
def Block.IsSameAsBlock (b other : Block) : Bool :=
  b.ID == other.ID && b.PrevID == other.PrevID && b.Signature == other.Signature

/-! ## model/blockchain/chain.go -/

/-- NewBlockJob represents the intent to add a new block. `ResultChan` names
the job's private result channel. -/
structure NewBlockJob where
  Block : Option Block
  ResultChan : Nat
  Check : Bool
deriving DecidableEq, Repr

/-- Chain represents a blockchain. `WorkerChan`, `ActionChan` and
`DistributeChan` are never nil and are not part of the state: what is sent on
them is recorded as events. `ProposedChan` and `CommittedChan` "may or may not
be nil". -/
structure Chain where
  Blocks : List Block
  Proposed : Option Block
  ProposedChan : Option Nat
  CommittedChan : Option Nat
deriving DecidableEq, Repr

/-- What the embedded code sends, and where: a job on `WorkerChan`, an error
value on a job's `ResultChan`, a block on `ActionChan`, a block on the
proposed-notification channel, a block or nil on the committed-notification
channel, and the launch of `loadMissingBlocks`. -/
inductive Event where
  | submit (job : NewBlockJob)
  | result (resultChan : Nat) (err : Option Error)
  | action (b : Block)
  | proposed (chan : Nat) (b : Block)
  | committed (chan : Nat) (v : Option Block)
  | recovery
deriving DecidableEq, Repr

/-- EmptyChain creates an empty chain. -/
def EmptyChain : Chain :=
  { Blocks := [], Proposed := none, ProposedChan := none, CommittedChan := none }

/-- LastBlock returns the last block in the chain (`Chain.LastBlock`). -/
def Chain.LastBlock (c : Chain) : Option Block :=
  if c.Blocks.length = 0 then none
  else c.Blocks.getLast?

/-- AddNewBlock queues a new block job: the job sent on `WorkerChan`, whose
`ResultChan` is the fresh channel `errChan` handed back to the caller. -/
def Chain.AddNewBlock (block : Option Block) (errChan : Nat) : NewBlockJob :=
  { Block := block, ResultChan := errChan, Check := true }

/-- AddNewBlockUnchecked adds a new block without verifier check. -/
def Chain.AddNewBlockUnchecked (block : Option Block) (errChan : Nat) : NewBlockJob :=
  { Block := block, ResultChan := errChan, Check := false }

/-- The tail of `SetProposedBlock`, after the checks: record the proposal and
serve the proposed-notification channel once. -/
def Chain.stage (c : Chain) (block : Block) : Chain × List Event :=
  match c.ProposedChan with
  | some ch => ({ c with Proposed := some block, ProposedChan := none }, [.proposed ch block])
  | none => ({ c with Proposed := some block }, [])

/-- SetProposedBlock checks and then sets the proposed block: the chain after
the call, what was sent, and the error returned. -/
def Chain.SetProposedBlock (c : Chain) (block : Block) : Chain × List Event × Option Error :=
  match c.LastBlock with
  | none =>
    if block.ID ≠ genesisBlockID then (c, [], some (.proposeNonGenesis block.ID))
    else ((c.stage block).1, (c.stage block).2, none)
  | some prevBlock =>
    if prevBlock.ID ≠ block.PrevID then
      (c, [], some (.proposePrevMismatch block.PrevID prevBlock.ID))
    else ((c.stage block).1, (c.stage block).2, none)

/-- GetNextProposed installs the freshly made channel `notifChan` as the
proposed-notification channel unless one is installed; the second component is
the channel handed back, or nil. -/
def Chain.GetNextProposed (c : Chain) (notifChan : Nat) : Chain × Option Nat :=
  match c.ProposedChan with
  | some _ => (c, none)
  | none => ({ c with ProposedChan := some notifChan }, some notifChan)

/-- GetNextCommitted installs the freshly made channel `notifChan` as the
committed-notification channel unless one is installed; the second component is
the channel handed back, or nil. -/
def Chain.GetNextCommitted (c : Chain) (notifChan : Nat) : Chain × Option Nat :=
  match c.CommittedChan with
  | some _ => (c, none)
  | none => ({ c with CommittedChan := some notifChan }, some notifChan)

/-- CommitProposedBlock verifies and commits a block
(`Chain.CommitProposedBlock`); the result is `none` when `c.Proposed` is nil,
which the method dereferences. -/
def Chain.CommitProposedBlock (cr : Crypto) (c : Chain) (keySet : KeySet) :
    Option (Chain × List Event × Option Error) :=
  match c.Proposed with
  | none => none
  | some proposed =>
    let prevBlock := c.LastBlock
    match proposed.Verify cr keySet prevBlock with
    | some err => some (c, [], some (.wrap "CommitProposedBlock failed to block.Verify" err))
    | none =>
      let blocks := c.Blocks ++ [proposed]
      match c.CommittedChan with
      | some ch =>
        some ({ c with Blocks := blocks, Proposed := none, CommittedChan := none },
          [.action proposed, .committed ch (some proposed)], none)
      | none => some ({ c with Blocks := blocks, Proposed := none }, [.action proposed], none)

/-! ## workers/commitworker.go -/

/-- The function `commitBlock` on a job that carries the block `block`: the
chain after the call and the error returned. Nothing of the job but its block
is read. -/
def commitBlock (cr : Crypto) (keySet : KeySet) (chain : Chain) (block : Block) :
    Chain × Option Error :=
  match chain.Proposed with
  | none => (chain, some .nonProposed)
  | some proposed =>
    if block.IsSameAsBlock proposed = false then (chain, some .nonProposed)
    else
      let last := chain.LastBlock
      let dup : Bool :=
        match last with
        | none => false
        | some l => block.IsSameAsBlock l
      if dup then (chain, none)
      else
        match block.Verify cr keySet last with
        | some err => (chain, some (.wrap "commitBlock failed to block.Verify" err))
        | none => ({ chain with Blocks := chain.Blocks ++ [proposed], Proposed := none }, none)

/-- The commit worker between two jobs: the chain it works on, and whether it
is parked for good on a send to a nil channel. -/
structure Worker where
  chain : Chain
  parked : Bool
deriving DecidableEq, Repr

/-- A send on `chain.CommittedChan`: an event when a channel is installed; on a
nil channel nothing is sent and the sender is parked for good. -/
def sendCommitted (chain : Chain) (v : Option Block) : List Event × Bool :=
  match chain.CommittedChan with
  | some ch => ([.committed ch v], false)
  | none => ([], true)

/-- One iteration of the loop of `CommitWorker`, on the job it dequeued: the
worker afterwards and what it sent, in order. -/
def CommitWorkerJob (cr : Crypto) (keySet : KeySet) (chain : Chain) (blockJob : NewBlockJob) :
    Worker × List Event :=
  match blockJob.Block with
  | none => ({ chain := chain, parked := false }, [])
  | some block =>
    match commitBlock cr keySet chain block with
    | (chain1, some err) =>
      let chain2 := { chain1 with Proposed := none }
      ({ chain := chain2, parked := (sendCommitted chain2 none).2 },
        [.result blockJob.ResultChan (some (.wrap "CommitWorker failed to checkBlock" err))]
          ++ (sendCommitted chain2 none).1
          ++ (if (sendCommitted chain2 none).2 then [] else [.recovery]))
    | (chain1, none) =>
      ({ chain := chain1, parked := (sendCommitted chain1 (some block)).2 },
        [.result blockJob.ResultChan none, .action block]
          ++ (sendCommitted chain1 (some block)).1)

/-- The loop of `CommitWorker` over the jobs in the order they are dequeued; a
parked worker dequeues nothing more. -/
def CommitWorker (cr : Crypto) (keySet : KeySet) : Worker → List NewBlockJob → Worker × List Event
  | w, [] => (w, [])
  | w, job :: jobs =>
    if w.parked then (w, [])
    else
      let step := CommitWorkerJob cr keySet w.chain job
      let rest := CommitWorker cr keySet step.1 jobs
      (rest.1, step.2 ++ rest.2)

/-- The first value sent on the result channel `resultChan`, if any. -/
def resultOn (resultChan : Nat) : List Event → Option (Option Error)
  | [] => none
  | .result ch err :: evs => if ch = resultChan then some err else resultOn resultChan evs
  | _ :: evs => resultOn resultChan evs

/-- What a call of `LoadFromBlocks` comes to: it returns an error value, or it
waits for good on a result that is never sent. -/
inductive LoadOutcome where
  | returned (err : Option Error)
  | waiting
deriving DecidableEq, Repr

/-- The loop of `LoadFromBlocks` run against the commit worker: each block is
submitted unchecked on a result channel of its own (`errChan`, `errChan + 1`,
...), the worker handles the job, and the caller reads the job's result before
it submits the next. -/
def loadLoop (cr : Crypto) (keySet : KeySet) :
    Worker → List (Option Block) → Nat → Worker × List Event × LoadOutcome
  | w, [], _ => (w, [], .returned none)
  | w, block :: blocks, errChan =>
    let job := Chain.AddNewBlockUnchecked block errChan
    if w.parked then (w, [.submit job], .waiting)
    else
      let step := CommitWorkerJob cr keySet w.chain job
      match resultOn errChan step.2 with
      | none => (step.1, .submit job :: step.2, .waiting)
      | some (some err) => (step.1, .submit job :: step.2, .returned (some err))
      | some none =>
        let rest := loadLoop cr keySet step.1 blocks (errChan + 1)
        (rest.1, .submit job :: step.2 ++ rest.2.1, rest.2.2)

/-- LoadFromBlocks loads a chain from a block array (`Chain.LoadFromBlocks`),
run against the commit worker `w` that serves the chain's work queue. -/
def Chain.LoadFromBlocks (cr : Crypto) (keySet : KeySet) (w : Worker)
    (blocks : List (Option Block)) (errChan : Nat) : Worker × List Event × LoadOutcome :=
  if w.chain.Blocks.length > 0 then
    (w, [], .returned (some (.loadExisting w.chain.Blocks.length)))
  else loadLoop cr keySet w blocks errChan

/-! ## Runs of the chain operations -/

/-- An operation on the chain: a call of `SetProposedBlock`, `GetNextProposed`,
`GetNextCommitted` or `CommitProposedBlock` by some goroutine, or the commit
worker taking the next job from its queue. -/
inductive Op where
  | setProposed (block : Block)
  | getNextProposed (notifChan : Nat)
  | getNextCommitted (notifChan : Nat)
  | commitProposed
  | job (blockJob : NewBlockJob)
deriving DecidableEq, Repr

/-- The chain and the worker after one operation. A parked worker takes no job;
`CommitProposedBlock` on a chain with no proposal does not return, and leaves
the chain as it is. -/
def applyOp (cr : Crypto) (keySet : KeySet) (w : Worker) : Op → Worker
  | .setProposed block => { w with chain := (w.chain.SetProposedBlock block).1 }
  | .getNextProposed notifChan => { w with chain := (w.chain.GetNextProposed notifChan).1 }
  | .getNextCommitted notifChan => { w with chain := (w.chain.GetNextCommitted notifChan).1 }
  | .commitProposed =>
    match w.chain.CommitProposedBlock cr keySet with
    | none => w
    | some r => { w with chain := r.1 }
  | .job blockJob => if w.parked then w else (CommitWorkerJob cr keySet w.chain blockJob).1

/-- The chain and the worker after the operations of a list, in order. -/
def runOps (cr : Crypto) (keySet : KeySet) (w : Worker) (ops : List Op) : Worker :=
  ops.foldl (applyOp cr keySet) w

/-- The blocks of the jobs among the operations, in the order the jobs are
dequeued. -/
def jobBlocks : List Op → List Block
  | [] => []
  | .job blockJob :: ops =>
    match blockJob.Block with
    | some block => block :: jobBlocks ops
    | none => jobBlocks ops
  | _ :: ops => jobBlocks ops

/-- The block `b` is linked to the block `a` before it: its ID is the encoded
SHA-256 digest of `a`'s ciphertext and its PrevID is `a`'s ID. -/
def Block.LinkedTo (cr : Crypto) (a b : Block) : Prop :=
  b.ID = cr.base64URLEncode (cr.sha256 a.Data.Data) ∧ b.PrevID = a.ID

/-- The linkage invariant of a chain: the first committed block has the genesis
sentinel ID, each later committed block is linked to the block before it, and
a staged proposal on a non-empty chain has the tip's ID as its PrevID. -/
def Chain.Linked (cr : Crypto) (c : Chain) : Prop :=
  (∀ g, c.Blocks.head? = some g → g.ID = genesisBlockID) ∧
    c.Blocks.Chain' (Block.LinkedTo cr) ∧
    (∀ p tip, c.Proposed = some p → c.LastBlock = some tip → p.PrevID = tip.ID)

/-- The blocks of a list are well formed and sequential after `last`: each
passes `Verify` against the block before it (against nil for the first block of
an empty chain), has that block's ID as its PrevID, and is not identity-equal
to it. -/
def WellFormedAfter (cr : Crypto) (keySet : KeySet) : Option Block → List Block → Prop
  | _, [] => True
  | last, b :: bs =>
    b.Verify cr keySet last = none ∧
      (∀ tip, last = some tip → b.PrevID = tip.ID ∧ b.IsSameAsBlock tip = false) ∧
      WellFormedAfter cr keySet (some b) bs

/-- The jobs `AddNewBlock` queues for the blocks of a list, each with a result
channel of its own (`errChan`, `errChan + 1`, ...). -/
def checkedJobs : List Block → Nat → List NewBlockJob
  | [], _ => []
  | b :: bs, errChan => Chain.AddNewBlock (some b) errChan :: checkedJobs bs (errChan + 1)

/-- The run in which each block of a list is staged by `SetProposedBlock` and
the job `AddNewBlock` queued for it is then dequeued, block after block. -/
def stagedRun : List Block → Nat → List Op
  | [], _ => []
  | b :: bs, errChan =>
    .setProposed b :: .job (Chain.AddNewBlock (some b) errChan) :: stagedRun bs (errChan + 1)

/-! ## Concrete primitives for evaluation -/

/-- A small stand-in for the primitives, to evaluate the embedding on concrete
blocks: the digest is the length and the sum of the input, the encoding writes
one letter per byte, a signature is the private exponent before the digest, and
it verifies under the public key whose modulus is that exponent. -/
def toyCrypto : Crypto where
  sha256 := fun bs => [bs.length, bs.sum]
  base64URLEncode := fun bs => String.mk (bs.map (fun n => if n % 2 = 0 then 'a' else 'b'))
  signPKCS1v15 := fun priv hashed => some (priv.D :: hashed)
  verifyPKCS1v15 := fun pub hashed sig => sig == pub.N.natAbs :: hashed

/-- The master key pair of the examples. -/
def masterKey : KeyPair :=
  { Private := some { PublicKey := { N := 7, E := 3 }, D := 7 },
    Public := { N := 7, E := 3 }, KID := MasterKeyPairKID }

/-- A node key pair of the examples. -/
def nodeKey : KeyPair :=
  { Private := some { PublicKey := { N := 5, E := 3 }, D := 5 },
    Public := { N := 5, E := 3 }, KID := "k1" }

/-- The registry of the examples: the master key pair and the node key pair,
in their public form. -/
def toyKeySet : KeySet :=
  { KeyPairWithKID := fun kid =>
      if kid = "k1" then some { nodeKey with Private := none }
      else if kid = MasterKeyPairKID then some { masterKey with Private := none }
      else none }

/-- A genesis block signed by the master key pair of the examples. -/
def genesisBlock : Block :=
  { ID := genesisBlockID, Data := { Data := [1, 2], KeyType := "sym", KID := "g" },
    ActionType := "init", Signature := { Signature := [7, 2, 3], KID := MasterKeyPairKID },
    PrevID := "" }

/-- A pending block: placeholder ID, no link, no signature yet. -/
def pendingBlock : Block :=
  { ID := "pending", Data := { Data := [4], KeyType := "sym", KID := "g" },
    ActionType := "set", Signature := { Signature := [], KID := "" }, PrevID := "" }

/-- The pending block once prepared against the genesis block with the node key
pair. -/
def preparedBlock : Block :=
  { ID := "ab", Data := { Data := [4], KeyType := "sym", KID := "g" },
    ActionType := "set", Signature := { Signature := [5, 3, 9], KID := "k1" },
    PrevID := genesisBlockID }

/-- The signature primitive accepts under `K.Public` every signature it
produced with `K.Private`, over the same digest. -/
def KeyPair.AcceptsOwnSignatures (cr : Crypto) (K : KeyPair) : Prop :=
  ∀ priv hashed sig, K.Private = some priv → cr.signPKCS1v15 priv hashed = some sig →
    cr.verifyPKCS1v15 K.Public hashed sig = true

/-- A block that differs from `preparedBlock` in its ActionType only. -/
def stagedTwin : Block :=
  { preparedBlock with ActionType := "evict" }

/-- A genesis block whose PrevID is the genesis sentinel, signed by the master
key pair of the examples. -/
def selfLinkedGenesis : Block :=
  { genesisBlock with PrevID := genesisBlockID }

/-- The empty chain with the committed-notification channel 9 installed. -/
def watchedChain : Chain :=
  (EmptyChain.GetNextCommitted 9).1

/-- The chain of the examples after its genesis block was staged and
committed. -/
def genesisChain : Chain :=
  (CommitWorkerJob toyCrypto toyKeySet (watchedChain.SetProposedBlock genesisBlock).1
    (Chain.AddNewBlock (some genesisBlock) 1)).1.chain

/-- The chain of the examples after the self-linked genesis block was staged,
committed, and staged once more on top of itself. -/
def restagedChain : Chain :=
  ((CommitWorkerJob toyCrypto toyKeySet (watchedChain.SetProposedBlock selfLinkedGenesis).1
    (Chain.AddNewBlock (some selfLinkedGenesis) 1)).1.chain.SetProposedBlock
      selfLinkedGenesis).1

/-- A block linked like `preparedBlock`, with a signature the node key pair
did not produce. -/
def forgedBlock : Block :=
  { preparedBlock with Signature := { Signature := [0], KID := "k1" } }

/-- Stand-ins for the encoders of the examples: a byte is written as the
character with that code, and the JSON document lists the exponent, the length
of the KID, the KID and the encoded modulus. -/
def toyCodec : Codec where
  jsonMarshal := fun spk =>
    spk.E.natAbs :: spk.KID.length :: (spk.KID.data ++ spk.N.data).map Char.toNat
  jsonUnmarshal := fun src =>
    match src with
    | e :: k :: rest =>
      some { N := String.mk ((rest.drop k).map Char.ofNat), E := Int.ofNat e,
             KID := String.mk ((rest.take k).map Char.ofNat) }
    | _ => none
  base64URLDecode := fun s => some (s.data.map Char.toNat)
  encryptOAEP := fun rand pub src => some (pub.N.natAbs :: rand ++ src)
  KeyTypePair := "pair"

/-- The primitives of the examples with the encoding `toyCodec` decodes. -/
def plainCrypto : Crypto :=
  { toyCrypto with base64URLEncode := fun bs => String.mk (bs.map Char.ofNat) }

/-- A key pair of the examples with a two-byte modulus. -/
def exportKey : KeyPair :=
  { Private := some { PublicKey := { N := 3233, E := 17 }, D := 2753 },
    Public := { N := 3233, E := 17 }, KID := "k2" }

/-- A run of the examples: a waiter installs the committed-notification
channel, the genesis block is staged and committed, then the prepared block is
staged and committed. -/
def twoBlockRun : List Op :=
  [.getNextCommitted 9, .setProposed genesisBlock, .job (Chain.AddNewBlock (some genesisBlock) 1),
    .setProposed preparedBlock, .job (Chain.AddNewBlock (some preparedBlock) 2)]

/-! ## Theorems: block integrity -/

theorem prepareForCommit_ok_iff (cr : Crypto) (b b' : Block) (sigKey : KeyPair) (prev : Block) :
    b.prepareForCommit cr sigKey prev = .ok b' ↔
      ∃ priv sig, sigKey.Private = some priv ∧
        cr.signPKCS1v15 priv (cr.sha256 (cr.sha256 prev.Data.Data ++ b.Data.Data)) = some sig ∧
        b' = { b with ID := cr.base64URLEncode (cr.sha256 prev.Data.Data),
                      Signature := { Signature := sig, KID := sigKey.KID },
                      PrevID := prev.ID } := by
  unfold Block.prepareForCommit Block.Hash KeyPair.Sign
  cases hp : sigKey.Private with
  | none => simp
  | some priv =>
    cases hs : cr.signPKCS1v15 priv (cr.sha256 (cr.sha256 prev.Data.Data ++ b.Data.Data)) with
    | none => simp [hs]
    | some sig =>
      simp only [hs]
      constructor
      · intro h
        injection h with h
        exact ⟨priv, sig, rfl, hs, h.symm⟩
      · rintro ⟨priv', sig', hp', hs', rfl⟩
        injection hp' with hp'
        subst hp'
        rw [hs] at hs'
        injection hs' with hs'
        subst hs'
        rfl

theorem verify_some_iff (cr : Crypto) (b prev : Block) (keySet : KeySet) :
    b.Verify cr keySet (some prev) = none ↔
      ∃ sigKey, keySet.KeyPairWithKID b.Signature.KID = some sigKey ∧
        b.ID = cr.base64URLEncode (cr.sha256 prev.Data.Data) ∧
        sigKey.Verify cr (cr.sha256 prev.Data.Data ++ b.Data.Data) b.Signature
          = AstroSigVerified := by
  unfold Block.Verify Block.verifyBody Block.Hash
  cases hk : keySet.KeyPairWithKID b.Signature.KID with
  | none => simp
  | some sigKey =>
    simp only [AstroSigUnverified, AstroSigVerified]
    by_cases hid : b.ID = cr.base64URLEncode (cr.sha256 prev.Data.Data)
    · cases hv : sigKey.Verify cr (cr.sha256 prev.Data.Data ++ b.Data.Data) b.Signature <;>
        simp [hid, hv]
    · simp [hid]

theorem verify_none_iff (cr : Crypto) (b : Block) (keySet : KeySet) :
    b.Verify cr keySet none = none ↔
      ∃ sigKey, keySet.KeyPairWithKID b.Signature.KID = some sigKey ∧
        sigKey.KID = MasterKeyPairKID ∧ b.ID = genesisBlockID ∧
        sigKey.Verify cr b.Data.Data b.Signature = AstroSigVerified := by
  unfold Block.Verify Block.verifyBody
  cases hk : keySet.KeyPairWithKID b.Signature.KID with
  | none => simp
  | some sigKey =>
    simp only [AstroSigUnverified, AstroSigVerified]
    by_cases hm : sigKey.KID = MasterKeyPairKID
    · by_cases hid : b.ID = genesisBlockID
      · cases hv : sigKey.Verify cr b.Data.Data b.Signature <;> simp [hm, hid, hv]
      · simp [hm, hid]
    · simp [hm]

theorem keyPair_verify_iff (cr : Crypto) (akp : KeyPair) (src : Bytes) (sig : Signature) :
    akp.Verify cr src sig = true ↔
      sig.KID = akp.KID ∧ cr.verifyPKCS1v15 akp.Public (cr.sha256 src) sig.Signature = true := by
  unfold KeyPair.Verify
  simp only [AstroSigUnverified, AstroSigVerified]
  by_cases hk : sig.KID = akp.KID
  · cases hv : cr.verifyPKCS1v15 akp.Public (cr.sha256 src) sig.Signature <;> simp [hk, hv]
  · simp [hk]

/-- C1, hash-link consistency: when `prepareForCommit` returns without error,
the block's ID is the encoded SHA-256 digest of the predecessor's ciphertext and
its PrevID is the predecessor's ID, whatever the block's own data and the
signing key. -/
theorem prepareForCommit_hash_link (cr : Crypto) (b b' : Block) (sigKey : KeyPair)
    (prev : Block) (h : b.prepareForCommit cr sigKey prev = .ok b') :
    b'.ID = cr.base64URLEncode (cr.sha256 prev.Data.Data) ∧ b'.PrevID = prev.ID := by
  obtain ⟨priv, sig, -, -, rfl⟩ := (prepareForCommit_ok_iff cr b b' sigKey prev).1 h
  exact ⟨rfl, rfl⟩

theorem prepareForCommit_hash_link_witness :
    pendingBlock.prepareForCommit toyCrypto nodeKey genesisBlock = .ok preparedBlock ∧
      preparedBlock.ID = toyCrypto.base64URLEncode (toyCrypto.sha256 genesisBlock.Data.Data) ∧
      preparedBlock.PrevID = genesisBlock.ID :=
  ⟨rfl, prepareForCommit_hash_link toyCrypto pendingBlock preparedBlock nodeKey genesisBlock rfl⟩

/-- C2, verification soundness in the accepting direction: a block prepared
with the key pair `K` against `prev` verifies against `prev` under a registry
that resolves `K`'s KID to a key pair with `K`'s public key and KID, provided
the signature primitive accepts the signatures it produced. -/
theorem verify_of_prepareForCommit (cr : Crypto) (b b' prev : Block) (K K' : KeyPair)
    (keySet : KeySet) (hacc : K.AcceptsOwnSignatures cr)
    (hprep : b.prepareForCommit cr K prev = .ok b')
    (hreg : keySet.KeyPairWithKID K.KID = some K') (hpub : K'.Public = K.Public)
    (hkid : K'.KID = K.KID) :
    b'.Verify cr keySet (some prev) = none := by
  obtain ⟨priv, sig, hp, hs, rfl⟩ := (prepareForCommit_ok_iff cr b b' K prev).1 hprep
  rw [verify_some_iff]
  refine ⟨K', hreg, rfl, ?_⟩
  show K'.Verify cr _ _ = true
  rw [keyPair_verify_iff]
  refine ⟨hkid.symm, ?_⟩
  rw [hpub]
  exact hacc priv _ sig hp hs

theorem nodeKey_acceptsOwnSignatures : nodeKey.AcceptsOwnSignatures toyCrypto := by
  intro priv hashed sig hp hs
  simp only [nodeKey, Option.some.injEq] at hp
  subst hp
  simp only [toyCrypto, Option.some.injEq] at hs
  subst hs
  simp [toyCrypto, nodeKey]

theorem verify_of_prepareForCommit_witness :
    nodeKey.AcceptsOwnSignatures toyCrypto ∧
      pendingBlock.prepareForCommit toyCrypto nodeKey genesisBlock = .ok preparedBlock ∧
      preparedBlock.Verify toyCrypto toyKeySet (some genesisBlock) = none :=
  ⟨nodeKey_acceptsOwnSignatures, rfl,
    verify_of_prepareForCommit toyCrypto pendingBlock preparedBlock genesisBlock nodeKey
      { nodeKey with Private := none } toyKeySet nodeKey_acceptsOwnSignatures rfl rfl rfl rfl⟩

/-- C3, normal-case verification: against a non-nil predecessor, `Verify`
returns no error exactly when the registry resolves the signature's KID to a
key pair, the block's ID is the encoded SHA-256 digest of the predecessor's
ciphertext, and that key pair's `Verify` accepts the block's signature over the
digest followed by the block's ciphertext; a missing registry entry is an
error, and so is any other ID. -/
theorem verify_normal_case (cr : Crypto) (b prev : Block) (keySet : KeySet) :
    (b.Verify cr keySet (some prev) = none ↔
      ∃ sigKey, keySet.KeyPairWithKID b.Signature.KID = some sigKey ∧
        b.ID = cr.base64URLEncode (cr.sha256 prev.Data.Data) ∧
        sigKey.Verify cr (cr.sha256 prev.Data.Data ++ b.Data.Data) b.Signature
          = AstroSigVerified) ∧
    (keySet.KeyPairWithKID b.Signature.KID = none →
      b.Verify cr keySet (some prev) = some (.keyNotFound b.Signature.KID)) ∧
    (b.ID ≠ cr.base64URLEncode (cr.sha256 prev.Data.Data) →
      ∃ err, b.Verify cr keySet (some prev) = some err) := by
  refine ⟨verify_some_iff cr b prev keySet, ?_, ?_⟩
  · intro hk
    simp [Block.Verify, hk]
  · intro hid
    cases hv : b.Verify cr keySet (some prev) with
    | some err => exact ⟨err, rfl⟩
    | none =>
      obtain ⟨_, _, hid', _⟩ := (verify_some_iff cr b prev keySet).1 hv
      exact absurd hid' hid

theorem verify_normal_case_witness :
    preparedBlock.Verify toyCrypto toyKeySet (some genesisBlock) = none ∧
      ({ preparedBlock with Signature := { preparedBlock.Signature with KID := "k2" } } : Block).Verify
          toyCrypto toyKeySet (some genesisBlock) = some (.keyNotFound "k2") ∧
      ∃ err, ({ preparedBlock with ID := "ba" } : Block).Verify toyCrypto toyKeySet
          (some genesisBlock) = some err :=
  ⟨(verify_normal_case toyCrypto preparedBlock genesisBlock toyKeySet).1.2
      ⟨{ nodeKey with Private := none }, rfl, rfl, rfl⟩,
    (verify_normal_case toyCrypto
      { preparedBlock with Signature := { preparedBlock.Signature with KID := "k2" } }
      genesisBlock toyKeySet).2.1 rfl,
    (verify_normal_case toyCrypto { preparedBlock with ID := "ba" } genesisBlock toyKeySet).2.2
      (by decide)⟩

/-- C4, genesis special-casing: `Verify` against a nil predecessor returns no
error only if the key pair resolved for the signature's KID has the master KID
and the block's ID is the genesis sentinel, and the bytes checked against the
signature are then the block's ciphertext alone; after that, any other ID, any
other KID on the signature, and any registry that resolves the signer to a key
pair without the master KID make `Verify` return an error. -/
theorem verify_genesis_case (cr : Crypto) (b : Block) (keySet : KeySet)
    (h : b.Verify cr keySet none = none) :
    (∃ sigKey, keySet.KeyPairWithKID b.Signature.KID = some sigKey ∧
      sigKey.KID = MasterKeyPairKID ∧ b.ID = genesisBlockID ∧
      sigKey.Verify cr b.Data.Data b.Signature = AstroSigVerified) ∧
    (∀ id, id ≠ b.ID → ∃ err, ({ b with ID := id } : Block).Verify cr keySet none = some err) ∧
    (∀ kid, kid ≠ b.Signature.KID →
      ∃ err, ({ b with Signature := { b.Signature with KID := kid } } : Block).Verify
        cr keySet none = some err) ∧
    (∀ (keySet' : KeySet) (sigKey' : KeyPair),
      keySet'.KeyPairWithKID b.Signature.KID = some sigKey' → sigKey'.KID ≠ MasterKeyPairKID →
      b.Verify cr keySet' none = some (.genesisNonMaster sigKey'.KID)) := by
  obtain ⟨sigKey, hk, hm, hid, hv⟩ := (verify_none_iff cr b keySet).1 h
  refine ⟨⟨sigKey, hk, hm, hid, hv⟩, ?_, ?_, ?_⟩
  · intro id hne
    cases hv' : ({ b with ID := id } : Block).Verify cr keySet none with
    | some err => exact ⟨err, rfl⟩
    | none =>
      obtain ⟨_, _, _, hid', _⟩ := (verify_none_iff cr _ keySet).1 hv'
      exact absurd (hid'.trans hid.symm) hne
  · intro kid hne
    cases hv' : ({ b with Signature := { b.Signature with KID := kid } } : Block).Verify
        cr keySet none with
    | some err => exact ⟨err, rfl⟩
    | none =>
      obtain ⟨sigKey', _, hm', _, hver⟩ := (verify_none_iff cr _ keySet).1 hv'
      have h1 := ((keyPair_verify_iff cr sigKey' _ _).1 hver).1
      have h2 := ((keyPair_verify_iff cr sigKey _ _).1 hv).1
      exact absurd (h1.trans (hm'.trans (hm.symm.trans h2.symm))) hne
  · intro keySet' sigKey' hk' hm'
    simp [Block.Verify, Block.verifyBody, hk', hm']

theorem verify_genesis_case_witness :
    genesisBlock.Verify toyCrypto toyKeySet none = none ∧
      (∃ err, ({ genesisBlock with ID := "ab" } : Block).Verify toyCrypto toyKeySet none
        = some err) ∧
      (∃ err, ({ genesisBlock with
          Signature := { genesisBlock.Signature with KID := "k1" } } : Block).Verify
        toyCrypto toyKeySet none = some err) :=
  ⟨rfl, (verify_genesis_case toyCrypto genesisBlock toyKeySet rfl).2.1 "ab" (by decide),
    (verify_genesis_case toyCrypto genesisBlock toyKeySet rfl).2.2.1 "k1" (by decide)⟩

/-- C5 as stated fails: the block prepared against the genesis block verifies
against it, and still verifies after its PrevID is replaced by another
string. -/
theorem verify_mutated_PrevID_accepted :
    pendingBlock.prepareForCommit toyCrypto nodeKey genesisBlock = .ok preparedBlock ∧
      preparedBlock.Verify toyCrypto toyKeySet (some genesisBlock) = none ∧
      "tampered" ≠ preparedBlock.PrevID ∧
      ({ preparedBlock with PrevID := "tampered" } : Block).Verify toyCrypto toyKeySet
        (some genesisBlock) = none :=
  ⟨rfl, rfl, by decide, rfl⟩

/-- C5, amended: `Verify` does not read PrevID. Replacing a block's PrevID by any
string leaves the result of `Verify` as it was, for every registry and every
predecessor (nil included); a block that verified still verifies. -/
theorem verify_ignores_PrevID (cr : Crypto) (b : Block) (keySet : KeySet)
    (prev : Option Block) (prevID : String) :
    ({ b with PrevID := prevID } : Block).Verify cr keySet prev = b.Verify cr keySet prev := by
  cases prev <;> rfl

/-! ## Theorems: staging and the commit worker -/

theorem lastBlock_eq_getLast (c : Chain) : c.LastBlock = c.Blocks.getLast? := by
  unfold Chain.LastBlock
  cases h : c.Blocks with
  | nil => simp
  | cons b bs => simp

theorem lastBlock_eq_none_iff (c : Chain) : c.LastBlock = none ↔ c.Blocks = [] := by
  rw [lastBlock_eq_getLast]
  exact List.getLast?_eq_none_iff

theorem stage_blocks (c : Chain) (block : Block) :
    (c.stage block).1.Blocks = c.Blocks ∧ (c.stage block).1.Proposed = some block ∧
      (c.stage block).1.CommittedChan = c.CommittedChan := by
  unfold Chain.stage
  cases c.ProposedChan <;> exact ⟨rfl, rfl, rfl⟩

/-- C6, staging a proposal: `SetProposedBlock` returns no error exactly when
the chain has a tip whose ID is the candidate's PrevID, or the chain has no
committed block and the candidate's ID is the genesis sentinel; when it
returns an error the chain (committed sequence, proposal, proposed-notification
slot) is unchanged and nothing is sent; when it succeeds the proposal is the
given block and the committed sequence is unchanged. -/
theorem SetProposedBlock_accepts_iff (c : Chain) (block : Block) :
    ((c.SetProposedBlock block).2.2 = none ↔
      (∃ tip, c.LastBlock = some tip ∧ block.PrevID = tip.ID) ∨
        (c.Blocks = [] ∧ block.ID = genesisBlockID)) ∧
    ((c.SetProposedBlock block).2.2 ≠ none →
      (c.SetProposedBlock block).1 = c ∧ (c.SetProposedBlock block).2.1 = []) ∧
    ((c.SetProposedBlock block).2.2 = none →
      (c.SetProposedBlock block).1.Proposed = some block ∧
        (c.SetProposedBlock block).1.Blocks = c.Blocks) := by
  unfold Chain.SetProposedBlock
  cases hl : c.LastBlock with
  | none =>
    have hb : c.Blocks = [] := (lastBlock_eq_none_iff c).1 hl
    by_cases hid : block.ID = genesisBlockID
    · simp [hid, hb, (stage_blocks c block).1, (stage_blocks c block).2.1]
    · simp [hid]
  | some tip =>
    have hb : c.Blocks ≠ [] := fun h => by
      rw [(lastBlock_eq_none_iff c).2 h] at hl
      exact Option.noConfusion hl
    by_cases hid : tip.ID = block.PrevID
    · simp [hid, hb, (stage_blocks c block).1, (stage_blocks c block).2.1]
    · have hid' : ¬ block.PrevID = tip.ID := fun h => hid h.symm
      simp [hid, hid', hb]

theorem SetProposedBlock_accepts_iff_witness :
    (genesisChain.SetProposedBlock preparedBlock).2.2 = none ∧
      (genesisChain.SetProposedBlock preparedBlock).1.Proposed = some preparedBlock ∧
      (genesisChain.SetProposedBlock pendingBlock).2.2 ≠ none ∧
      (genesisChain.SetProposedBlock pendingBlock).1 = genesisChain ∧
      (EmptyChain.SetProposedBlock genesisBlock).2.2 = none ∧
      (EmptyChain.SetProposedBlock preparedBlock).2.2 ≠ none :=
  ⟨(SetProposedBlock_accepts_iff genesisChain preparedBlock).1.2
      (Or.inl ⟨genesisBlock, rfl, rfl⟩),
    ((SetProposedBlock_accepts_iff genesisChain preparedBlock).2.2 rfl).1,
    by decide,
    ((SetProposedBlock_accepts_iff genesisChain pendingBlock).2.1 (by decide)).1,
    rfl, by decide⟩

theorem commitBlock_not_proposed (cr : Crypto) (keySet : KeySet) (chain : Chain) (block : Block)
    (h : ∀ p, chain.Proposed = some p → block.IsSameAsBlock p = false) :
    commitBlock cr keySet chain block = (chain, some .nonProposed) := by
  unfold commitBlock
  cases hp : chain.Proposed with
  | none => rfl
  | some p => simp [h p hp]

theorem commitBlock_duplicate (cr : Crypto) (keySet : KeySet) (chain : Chain)
    (block proposed tip : Block) (hp : chain.Proposed = some proposed)
    (hsame : block.IsSameAsBlock proposed = true) (ht : chain.LastBlock = some tip)
    (hdup : block.IsSameAsBlock tip = true) :
    commitBlock cr keySet chain block = (chain, none) := by
  unfold commitBlock
  simp [hp, hsame, ht, hdup]

theorem commitBlock_fresh (cr : Crypto) (keySet : KeySet) (chain : Chain)
    (block proposed : Block) (hp : chain.Proposed = some proposed)
    (hsame : block.IsSameAsBlock proposed = true)
    (hfresh : ∀ tip, chain.LastBlock = some tip → block.IsSameAsBlock tip = false) :
    commitBlock cr keySet chain block =
      match block.Verify cr keySet chain.LastBlock with
      | some err => (chain, some (.wrap "commitBlock failed to block.Verify" err))
      | none => ({ chain with Blocks := chain.Blocks ++ [proposed], Proposed := none }, none) := by
  unfold commitBlock
  cases ht : chain.LastBlock with
  | none => simp [hp, hsame]
  | some tip => simp [hp, hsame, hfresh tip ht]

/-- C7 as stated fails: the job's block is identity-equal to the staged
proposal, is not the tip and verifies against the tip, and the block the worker
appends is the staged proposal, which is not the job's block. -/
theorem commit_appends_staged_not_job_block :
    (genesisChain.SetProposedBlock stagedTwin).2.2 = none ∧
      preparedBlock.IsSameAsBlock stagedTwin = true ∧
      genesisChain.LastBlock = some genesisBlock ∧
      preparedBlock.IsSameAsBlock genesisBlock = false ∧
      preparedBlock.Verify toyCrypto toyKeySet genesisChain.LastBlock = none ∧
      (CommitWorkerJob toyCrypto toyKeySet (genesisChain.SetProposedBlock stagedTwin).1
        (Chain.AddNewBlock (some preparedBlock) 2)).1.chain.Blocks
        = genesisChain.Blocks ++ [stagedTwin] ∧
      genesisChain.Blocks ++ [stagedTwin] ≠ genesisChain.Blocks ++ [preparedBlock] := by
  refine ⟨rfl, rfl, rfl, rfl, rfl, rfl, by decide⟩

/-- C7, amended: for a job whose block is identity-equal to the staged proposal,
is not identity-equal to the tip and passes `Verify` against the current tip
(nil for an empty chain), the commit worker appends exactly one block at the
end of the committed sequence, the staged proposal (identity-equal to the job's
block), clears the proposal, changes nothing else of the chain, sends nil on
the job's result channel first and the job's block on the action channel next,
and then sends the job's block on the committed-notification channel. -/
theorem CommitWorkerJob_success (cr : Crypto) (keySet : KeySet) (chain : Chain)
    (job : NewBlockJob) (block proposed : Block) (hjob : job.Block = some block)
    (hp : chain.Proposed = some proposed) (hsame : block.IsSameAsBlock proposed = true)
    (hfresh : ∀ tip, chain.LastBlock = some tip → block.IsSameAsBlock tip = false)
    (hver : block.Verify cr keySet chain.LastBlock = none) :
    (CommitWorkerJob cr keySet chain job).1.chain
        = { chain with Blocks := chain.Blocks ++ [proposed], Proposed := none } ∧
      (CommitWorkerJob cr keySet chain job).2
        = [.result job.ResultChan none, .action block]
          ++ (sendCommitted chain (some block)).1 := by
  have hc := commitBlock_fresh cr keySet chain block proposed hp hsame hfresh
  rw [hver] at hc
  unfold CommitWorkerJob
  rw [hjob]
  simp only [hc]
  exact ⟨trivial, rfl⟩

theorem CommitWorkerJob_success_witness :
    (CommitWorkerJob toyCrypto toyKeySet (genesisChain.SetProposedBlock stagedTwin).1
        (Chain.AddNewBlock (some preparedBlock) 2)).1.chain
        = { genesisChain with Blocks := [genesisBlock, stagedTwin], Proposed := none } ∧
      (CommitWorkerJob toyCrypto toyKeySet (genesisChain.SetProposedBlock stagedTwin).1
        (Chain.AddNewBlock (some preparedBlock) 2)).2
        = [.result 2 none, .action preparedBlock, .committed 9 (some preparedBlock)] :=
  CommitWorkerJob_success toyCrypto toyKeySet (genesisChain.SetProposedBlock stagedTwin).1
    (Chain.AddNewBlock (some preparedBlock) 2) preparedBlock stagedTwin rfl rfl rfl
    (by intro tip h; cases h; rfl) rfl

/-- C8 as stated fails: a verification-required job whose block fails `Verify`
against the tip, but is identity-equal to the staged proposal and to the tip,
gets nil on its result channel and the proposal stays staged. -/
theorem commit_duplicate_skips_failing_verify :
    restagedChain.Blocks = [selfLinkedGenesis] ∧
      restagedChain.Proposed = some selfLinkedGenesis ∧
      (Chain.AddNewBlock (some selfLinkedGenesis) 2).Check = true ∧
      selfLinkedGenesis.Verify toyCrypto toyKeySet restagedChain.LastBlock
        = some (.idMismatch genesisBlockID "ab") ∧
      (CommitWorkerJob toyCrypto toyKeySet restagedChain
        (Chain.AddNewBlock (some selfLinkedGenesis) 2)).2
        = [.result 2 none, .action selfLinkedGenesis, .committed 9 (some selfLinkedGenesis)] ∧
      (CommitWorkerJob toyCrypto toyKeySet restagedChain
        (Chain.AddNewBlock (some selfLinkedGenesis) 2)).1.chain.Proposed
        = some selfLinkedGenesis := by
  refine ⟨rfl, rfl, rfl, rfl, rfl, rfl⟩

/-- C8, amended: for every verification-required job whose block is not
identity-equal to the staged proposal (nothing staged included), or whose block
is not identity-equal to the current tip and fails `Verify` against the tip
(nil for an empty chain), the commit worker sends an error on the job's result
channel first, leaves the committed sequence and the notification slots as
they were, and leaves the proposal cleared. -/
theorem CommitWorkerJob_rejection (cr : Crypto) (keySet : KeySet) (chain : Chain)
    (job : NewBlockJob) (block : Block) (hjob : job.Block = some block)
    (_hcheck : job.Check = true)
    (h : (∀ p, chain.Proposed = some p → block.IsSameAsBlock p = false) ∨
      ((∀ tip, chain.LastBlock = some tip → block.IsSameAsBlock tip = false) ∧
        ∃ err, block.Verify cr keySet chain.LastBlock = some err)) :
    (∃ err rest, (CommitWorkerJob cr keySet chain job).2
        = .result job.ResultChan (some err) :: rest) ∧
      (CommitWorkerJob cr keySet chain job).1.chain = { chain with Proposed := none } := by
  have hc : ∃ err, commitBlock cr keySet chain block = (chain, some err) := by
    rcases h with h | ⟨hfresh, err, hver⟩
    · exact ⟨_, commitBlock_not_proposed cr keySet chain block h⟩
    · cases hp : chain.Proposed with
      | none =>
        exact ⟨_, commitBlock_not_proposed cr keySet chain block
          (fun p h => by rw [hp] at h; exact Option.noConfusion h)⟩
      | some p =>
        cases hs : block.IsSameAsBlock p with
        | false =>
          refine ⟨_, commitBlock_not_proposed cr keySet chain block (fun q h => ?_)⟩
          rw [hp] at h
          cases h
          exact hs
        | true =>
          have := commitBlock_fresh cr keySet chain block p hp hs hfresh
          rw [hver] at this
          exact ⟨_, this⟩
  obtain ⟨err, hc⟩ := hc
  unfold CommitWorkerJob
  rw [hjob]
  simp only [hc]
  exact ⟨⟨_, _, rfl⟩, trivial⟩

theorem CommitWorkerJob_rejection_witness :
    (CommitWorkerJob toyCrypto toyKeySet (genesisChain.SetProposedBlock preparedBlock).1
        (Chain.AddNewBlock (some forgedBlock) 2)).1.chain
        = { (genesisChain.SetProposedBlock preparedBlock).1 with Proposed := none } ∧
      (∃ err, forgedBlock.Verify toyCrypto toyKeySet
        (genesisChain.SetProposedBlock forgedBlock).1.LastBlock = some err) ∧
      (CommitWorkerJob toyCrypto toyKeySet (genesisChain.SetProposedBlock forgedBlock).1
        (Chain.AddNewBlock (some forgedBlock) 3)).1.chain
        = { (genesisChain.SetProposedBlock forgedBlock).1 with Proposed := none } :=
  ⟨(CommitWorkerJob_rejection toyCrypto toyKeySet
      (genesisChain.SetProposedBlock preparedBlock).1
      (Chain.AddNewBlock (some forgedBlock) 2) forgedBlock rfl rfl
      (Or.inl (by intro p h; cases h; rfl))).2,
    ⟨_, rfl⟩,
    (CommitWorkerJob_rejection toyCrypto toyKeySet
      (genesisChain.SetProposedBlock forgedBlock).1
      (Chain.AddNewBlock (some forgedBlock) 3) forgedBlock rfl rfl
      (Or.inr ⟨by intro tip h; cases h; rfl, _, rfl⟩)).2⟩

/-- C9 as stated fails: on the chain whose tip is the genesis block, with
nothing staged, a job that delivers the genesis block again gets an error on
its result channel. -/
theorem duplicate_commit_unstaged_rejected :
    genesisChain.Blocks = [genesisBlock] ∧ genesisChain.Proposed = none ∧
      genesisBlock.IsSameAsBlock genesisBlock = true ∧
      (CommitWorkerJob toyCrypto toyKeySet genesisChain
        (Chain.AddNewBlock (some genesisBlock) 2)).2
        = [.result 2 (some (.wrap "CommitWorker failed to checkBlock" .nonProposed)),
            .committed 9 none, .recovery] := by
  refine ⟨rfl, rfl, rfl, rfl⟩

/-- C9, amended: for every non-empty chain and every job whose block is
identity-equal (same ID, PrevID and Signature) to the current tip, the committed
sequence is unchanged, whatever the staged proposal is, including none; the job
gets nil on its result channel when its block is also identity-equal to the
staged proposal, and an error when it is not or nothing is staged. -/
theorem CommitWorkerJob_duplicate (cr : Crypto) (keySet : KeySet) (chain : Chain)
    (job : NewBlockJob) (block tip : Block) (hjob : job.Block = some block)
    (ht : chain.LastBlock = some tip) (hdup : block.IsSameAsBlock tip = true) :
    (CommitWorkerJob cr keySet chain job).1.chain.Blocks = chain.Blocks ∧
      ((∃ p, chain.Proposed = some p ∧ block.IsSameAsBlock p = true) →
        ∃ rest, (CommitWorkerJob cr keySet chain job).2
          = .result job.ResultChan none :: rest) ∧
      ((∀ p, chain.Proposed = some p → block.IsSameAsBlock p = false) →
        ∃ err rest, (CommitWorkerJob cr keySet chain job).2
          = .result job.ResultChan (some err) :: rest) := by
  have hcases : (∃ p, chain.Proposed = some p ∧ block.IsSameAsBlock p = true) ∨
      (∀ p, chain.Proposed = some p → block.IsSameAsBlock p = false) := by
    cases hp : chain.Proposed with
    | none => exact Or.inr (fun p h => Option.noConfusion h)
    | some p =>
      cases hs : block.IsSameAsBlock p with
      | true => exact Or.inl ⟨p, rfl, hs⟩
      | false =>
        refine Or.inr (fun q h => ?_)
        cases h
        exact hs
  rcases hcases with ⟨p, hp, hsame⟩ | hno
  · have hc := commitBlock_duplicate cr keySet chain block p tip hp hsame ht hdup
    unfold CommitWorkerJob
    rw [hjob]
    simp only [hc]
    refine ⟨trivial, fun _ => ⟨_, rfl⟩, fun hno => ?_⟩
    rw [hno p hp] at hsame
    exact Bool.noConfusion hsame
  · have hc := commitBlock_not_proposed cr keySet chain block hno
    unfold CommitWorkerJob
    rw [hjob]
    simp only [hc]
    refine ⟨trivial, ?_, fun _ => ⟨_, _, rfl⟩⟩
    rintro ⟨p, hp, hsame⟩
    rw [hno p hp] at hsame
    exact Bool.noConfusion hsame

theorem CommitWorkerJob_duplicate_witness :
    (CommitWorkerJob toyCrypto toyKeySet restagedChain
        (Chain.AddNewBlock (some selfLinkedGenesis) 2)).1.chain.Blocks = [selfLinkedGenesis] ∧
      ∃ rest, (CommitWorkerJob toyCrypto toyKeySet restagedChain
        (Chain.AddNewBlock (some selfLinkedGenesis) 2)).2 = .result 2 none :: rest :=
  ⟨(CommitWorkerJob_duplicate toyCrypto toyKeySet restagedChain
      (Chain.AddNewBlock (some selfLinkedGenesis) 2) selfLinkedGenesis selfLinkedGenesis
      rfl rfl rfl).1,
    (CommitWorkerJob_duplicate toyCrypto toyKeySet restagedChain
      (Chain.AddNewBlock (some selfLinkedGenesis) 2) selfLinkedGenesis selfLinkedGenesis
      rfl rfl rfl).2.1 ⟨selfLinkedGenesis, rfl, rfl⟩⟩

/-- C10 fails on the code: `commitBlock` never reads the job's `Check` flag, so
on a chain with no committed block and no staged proposal the first unchecked
job of `LoadFromBlocks` is rejected as a non-proposed block; `LoadFromBlocks`
returns that error, submits no further block, and the committed sequence stays
empty. -/
theorem LoadFromBlocks_first_job_rejected (cr : Crypto) (keySet : KeySet) (w : Worker)
    (block : Block) (blocks : List (Option Block)) (errChan : Nat)
    (hB : w.chain.Blocks = []) (hP : w.chain.Proposed = none) (hpark : w.parked = false) :
    (Chain.LoadFromBlocks cr keySet w (some block :: blocks) errChan).2.2
        = .returned (some (.wrap "CommitWorker failed to checkBlock" .nonProposed)) ∧
      (Chain.LoadFromBlocks cr keySet w (some block :: blocks) errChan).1.chain.Blocks = [] ∧
      (Chain.LoadFromBlocks cr keySet w (some block :: blocks) errChan).2.1.filter
          (fun e => match e with | .submit _ => true | _ => false)
        = [.submit { Block := some block, ResultChan := errChan, Check := false }] := by
  have hc := commitBlock_not_proposed cr keySet w.chain block
    (fun p h => by rw [hP] at h; exact Option.noConfusion h)
  unfold Chain.LoadFromBlocks loadLoop
  simp only [hB, hpark, List.length_nil, gt_iff_lt, lt_self_iff_false, if_false,
    Bool.false_eq_true]
  unfold CommitWorkerJob
  simp only [Chain.AddNewBlockUnchecked, hc, sendCommitted]
  cases hcc : w.chain.CommittedChan <;> simp [resultOn, hB]

theorem LoadFromBlocks_first_job_rejected_witness :
    (Chain.LoadFromBlocks toyCrypto toyKeySet { chain := EmptyChain, parked := false }
        [some genesisBlock, some preparedBlock] 0).2.2
        = .returned (some (.wrap "CommitWorker failed to checkBlock" .nonProposed)) ∧
      (Chain.LoadFromBlocks toyCrypto toyKeySet { chain := EmptyChain, parked := false }
        [some genesisBlock, some preparedBlock] 0).1.chain.Blocks = [] :=
  ⟨(LoadFromBlocks_first_job_rejected toyCrypto toyKeySet { chain := EmptyChain, parked := false }
      genesisBlock [some preparedBlock] 0 rfl rfl rfl).1,
    (LoadFromBlocks_first_job_rejected toyCrypto toyKeySet { chain := EmptyChain, parked := false }
      genesisBlock [some preparedBlock] 0 rfl rfl rfl).2.1⟩

/-- On a chain that already has committed blocks `LoadFromBlocks` returns an
error and submits no job; the worker and the chain are untouched. -/
theorem LoadFromBlocks_existing_blocks (cr : Crypto) (keySet : KeySet) (w : Worker)
    (blocks : List (Option Block)) (errChan : Nat) (h : w.chain.Blocks ≠ []) :
    Chain.LoadFromBlocks cr keySet w blocks errChan
      = (w, [], .returned (some (.loadExisting w.chain.Blocks.length))) := by
  unfold Chain.LoadFromBlocks
  rw [if_pos (List.length_pos.2 h)]

/-! ## Theorems: the public form of a key pair -/

theorem foldl_base256 (bs : Bytes) (init : Nat) :
    bs.foldl (fun acc b => acc * 256 + b) init
      = init * 256 ^ bs.length + bs.foldl (fun acc b => acc * 256 + b) 0 := by
  induction bs generalizing init with
  | nil => simp
  | cons b bs ih =>
    simp only [List.foldl_cons, List.length_cons]
    rw [ih (init * 256 + b), ih (0 * 256 + b)]
    ring

theorem bigEndian_value (fuel n : Nat) (acc : Bytes) (h : n ≤ fuel) :
    (bigEndian fuel n acc).foldl (fun acc b => acc * 256 + b) 0
      = n * 256 ^ acc.length + acc.foldl (fun acc b => acc * 256 + b) 0 := by
  induction fuel generalizing n acc with
  | zero =>
    have hn : n = 0 := Nat.le_zero.1 h
    simp [bigEndian, hn]
  | succ fuel ih =>
    unfold bigEndian
    by_cases hn : n = 0
    · simp [hn]
    · rw [if_neg hn]
      have hlt : n / 256 < n := Nat.div_lt_self (Nat.pos_of_ne_zero hn) (by decide)
      rw [ih (n / 256) (n % 256 :: acc) (by omega)]
      simp only [List.length_cons, List.foldl_cons]
      rw [foldl_base256 acc (0 * 256 + n % 256)]
      have hdm := Nat.div_add_mod n 256
      calc n / 256 * 256 ^ (acc.length + 1)
            + ((0 * 256 + n % 256) * 256 ^ acc.length
              + List.foldl (fun acc b => acc * 256 + b) 0 acc)
          = (256 * (n / 256) + n % 256) * 256 ^ acc.length
              + List.foldl (fun acc b => acc * 256 + b) 0 acc := by ring
        _ = n * 256 ^ acc.length + List.foldl (fun acc b => acc * 256 + b) 0 acc := by
            rw [hdm]

/-- Reading back the bytes of a non-negative `big.Int` gives the integer. -/
theorem bigIntSetBytes_bigIntBytes (x : Int) (hx : 0 ≤ x) : bigIntSetBytes (bigIntBytes x) = x := by
  unfold bigIntSetBytes bigIntBytes
  rw [bigEndian_value x.natAbs x.natAbs [] (le_refl _)]
  simp only [List.length_nil, pow_zero, mul_one, List.foldl_nil, add_zero, Int.ofNat_eq_coe]
  exact Int.natAbs_of_nonneg hx

/-- C14, public-key JSON round trip: for a key pair `K` with a positive modulus,
`KeyPairFromPubKeyJSON` on `K.PubKeyJSON()` succeeds and returns the key pair
with `K`'s KID, modulus and exponent and no private component, which verifies
exactly what `K` verifies and encrypts exactly as `K` does, tagging the message
with `K`'s KID; `json.Unmarshal` and `Base64URLDecode` are taken to give back
what `json.Marshal` and `Base64URLEncode` were given here. -/
theorem pubKeyJSON_round_trip (cr : Crypto) (cd : Codec) (K : KeyPair)
    (hN : 0 < K.Public.N)
    (h64 : cd.base64URLDecode (cr.base64URLEncode (bigIntBytes K.Public.N))
      = some (bigIntBytes K.Public.N))
    (hjson : cd.jsonUnmarshal (cd.jsonMarshal
        { N := cr.base64URLEncode (bigIntBytes K.Public.N), E := K.Public.E, KID := K.KID })
      = some { N := cr.base64URLEncode (bigIntBytes K.Public.N), E := K.Public.E,
               KID := K.KID }) :
    ∃ K', KeyPairFromPubKeyJSON cd (K.PubKeyJSON cr cd) = .ok K' ∧
      K'.KID = K.KID ∧ K'.Public.N = K.Public.N ∧ K'.Public.E = K.Public.E ∧
      K'.Private = none ∧
      (∀ src sig, K'.Verify cr src sig = K.Verify cr src sig) ∧
      (∀ rand src, K'.Encrypt cd rand src = K.Encrypt cd rand src) ∧
      (∀ rand src msg, K'.Encrypt cd rand src = .ok msg → msg.KID = K.KID) := by
  have hback := bigIntSetBytes_bigIntBytes K.Public.N (le_of_lt hN)
  refine ⟨{ Private := none, Public := K.Public, KID := K.KID }, ?_, rfl, rfl, rfl, rfl,
    fun _ _ => rfl, fun _ _ => rfl, ?_⟩
  · unfold KeyPairFromPubKeyJSON KeyPair.PubKeyJSON
    simp only [hjson, serializablePubKey.deserialize, h64, hback]
  · intro rand src msg h
    unfold KeyPair.Encrypt at h
    cases he : cd.encryptOAEP rand K.Public src with
    | none => simp [he] at h
    | some encData =>
      simp only [he] at h
      injection h with h
      rw [← h]

theorem pubKeyJSON_round_trip_witness :
    ∃ K', KeyPairFromPubKeyJSON toyCodec (exportKey.PubKeyJSON plainCrypto toyCodec) = .ok K' ∧
      K'.KID = "k2" ∧ K'.Public.N = 3233 ∧ K'.Public.E = 17 ∧ K'.Private = none :=
  match pubKeyJSON_round_trip plainCrypto toyCodec exportKey (by decide) rfl rfl with
  | ⟨K', h, hk, hn, he, hp, _⟩ => ⟨K', h, hk, hn, he, hp⟩

/-! ## Theorems: notification, append-only growth and linkage -/

theorem commitBlock_frame (cr : Crypto) (keySet : KeySet) (chain : Chain) (block : Block) :
    (commitBlock cr keySet chain block).1.CommittedChan = chain.CommittedChan ∧
      (commitBlock cr keySet chain block).1.ProposedChan = chain.ProposedChan := by
  unfold commitBlock
  cases chain.Proposed with
  | none => exact ⟨rfl, rfl⟩
  | some proposed =>
    simp only
    split
    · exact ⟨rfl, rfl⟩
    · split
      · exact ⟨rfl, rfl⟩
      · split <;> exact ⟨rfl, rfl⟩

/-- C11 fails on the code: the commit worker sends on `chain.CommittedChan`
after every job without testing it for nil and never sets it to nil. With a
slot installed the job delivers one value and the slot stays installed for the
next job; with no slot installed the worker is parked for good on the send,
having delivered nothing. -/
theorem CommitWorkerJob_committed_slot (cr : Crypto) (keySet : KeySet) (chain : Chain)
    (job : NewBlockJob) (block : Block) (hjob : job.Block = some block) :
    (CommitWorkerJob cr keySet chain job).1.chain.CommittedChan = chain.CommittedChan ∧
      (chain.CommittedChan = none →
        (CommitWorkerJob cr keySet chain job).1.parked = true ∧
          ∀ ch v, Event.committed ch v ∉ (CommitWorkerJob cr keySet chain job).2) ∧
      (∀ ch, chain.CommittedChan = some ch →
        (CommitWorkerJob cr keySet chain job).1.parked = false ∧
          ∃ v, Event.committed ch v ∈ (CommitWorkerJob cr keySet chain job).2) := by
  have hf := (commitBlock_frame cr keySet chain block).1
  rcases hc : commitBlock cr keySet chain block with ⟨chain1, _ | err⟩
  · rw [hc] at hf
    simp only at hf
    unfold CommitWorkerJob
    rw [hjob]
    simp only [hc]
    refine ⟨hf, fun hn => ?_, fun ch hch => ?_⟩
    · simp [sendCommitted, hf, hn]
    · simp [sendCommitted, hf, hch]
  · rw [hc] at hf
    simp only at hf
    unfold CommitWorkerJob
    rw [hjob]
    simp only [hc]
    refine ⟨hf, fun hn => ?_, fun ch hch => ?_⟩
    · simp [sendCommitted, hf, hn]
    · simp [sendCommitted, hf, hch]

theorem CommitWorkerJob_committed_slot_witness :
    (CommitWorkerJob toyCrypto toyKeySet (watchedChain.SetProposedBlock genesisBlock).1
        (Chain.AddNewBlock (some genesisBlock) 1)).1.chain.CommittedChan = some 9 ∧
      (CommitWorker toyCrypto toyKeySet
        { chain := (watchedChain.SetProposedBlock genesisBlock).1, parked := false }
        [Chain.AddNewBlock (some genesisBlock) 1, Chain.AddNewBlock (some genesisBlock) 2]).2
        = [.result 1 none, .action genesisBlock, .committed 9 (some genesisBlock),
            .result 2 (some (.wrap "CommitWorker failed to checkBlock" .nonProposed)),
            .committed 9 none, .recovery] ∧
      (CommitWorkerJob toyCrypto toyKeySet (EmptyChain.SetProposedBlock genesisBlock).1
        (Chain.AddNewBlock (some genesisBlock) 1)).1.parked = true ∧
      CommitWorker toyCrypto toyKeySet
        { chain := (EmptyChain.SetProposedBlock genesisBlock).1, parked := false }
        [Chain.AddNewBlock (some genesisBlock) 1, Chain.AddNewBlock (some genesisBlock) 2]
        = ({ chain := { EmptyChain with Blocks := [genesisBlock] }, parked := true },
            [.result 1 none, .action genesisBlock]) :=
  ⟨(CommitWorkerJob_committed_slot toyCrypto toyKeySet
      (watchedChain.SetProposedBlock genesisBlock).1
      (Chain.AddNewBlock (some genesisBlock) 1) genesisBlock rfl).1,
    rfl,
    ((CommitWorkerJob_committed_slot toyCrypto toyKeySet
      (EmptyChain.SetProposedBlock genesisBlock).1
      (Chain.AddNewBlock (some genesisBlock) 1) genesisBlock rfl).2.1 rfl).1,
    rfl⟩

/-- C16, effects of the duplicate path: for a job whose block is identity-equal
to the staged proposal and to the current tip, `commitBlock` returns nil
whatever the registry and the primitives are (`Verify` is not consulted) and
leaves the chain as it is, so the committed sequence is unchanged and the
proposal stays staged; the commit worker sends nil on the job's result channel
and then the job's block on the action channel once more. -/
theorem CommitWorkerJob_duplicate_effects (cr : Crypto) (keySet : KeySet) (chain : Chain)
    (job : NewBlockJob) (block proposed tip : Block) (hjob : job.Block = some block)
    (hp : chain.Proposed = some proposed) (hsame : block.IsSameAsBlock proposed = true)
    (ht : chain.LastBlock = some tip) (hdup : block.IsSameAsBlock tip = true) :
    (∀ cr' keySet', commitBlock cr' keySet' chain block = (chain, none)) ∧
      (CommitWorkerJob cr keySet chain job).1.chain = chain ∧
      (CommitWorkerJob cr keySet chain job).1.chain.Proposed = some proposed ∧
      (CommitWorkerJob cr keySet chain job).2
        = [.result job.ResultChan none, .action block]
          ++ (sendCommitted chain (some block)).1 := by
  have hc := commitBlock_duplicate cr keySet chain block proposed tip hp hsame ht hdup
  refine ⟨fun cr' keySet' =>
    commitBlock_duplicate cr' keySet' chain block proposed tip hp hsame ht hdup, ?_⟩
  unfold CommitWorkerJob
  rw [hjob]
  simp only [hc]
  exact ⟨trivial, hp, trivial⟩

theorem CommitWorkerJob_duplicate_effects_witness :
    (∃ err, selfLinkedGenesis.Verify toyCrypto toyKeySet restagedChain.LastBlock = some err) ∧
      (CommitWorkerJob toyCrypto toyKeySet restagedChain
        (Chain.AddNewBlock (some selfLinkedGenesis) 2)).1.chain = restagedChain ∧
      (CommitWorkerJob toyCrypto toyKeySet restagedChain
        (Chain.AddNewBlock (some selfLinkedGenesis) 2)).2
        = [.result 2 none, .action selfLinkedGenesis, .committed 9 (some selfLinkedGenesis)] :=
  ⟨⟨_, rfl⟩,
    (CommitWorkerJob_duplicate_effects toyCrypto toyKeySet restagedChain
      (Chain.AddNewBlock (some selfLinkedGenesis) 2) selfLinkedGenesis selfLinkedGenesis
      selfLinkedGenesis rfl rfl rfl rfl rfl).2.1,
    (CommitWorkerJob_duplicate_effects toyCrypto toyKeySet restagedChain
      (Chain.AddNewBlock (some selfLinkedGenesis) 2) selfLinkedGenesis selfLinkedGenesis
      selfLinkedGenesis rfl rfl rfl rfl rfl).2.2.2⟩

theorem isSameAsBlock_iff (b other : Block) :
    b.IsSameAsBlock other = true ↔
      b.ID = other.ID ∧ b.PrevID = other.PrevID ∧ b.Signature = other.Signature := by
  simp [Block.IsSameAsBlock, and_assoc]

/-- What `commitBlock` comes to: an error with the chain as it was, nil with the
chain as it was (the duplicate path), or nil with the staged proposal appended
and cleared, after the job's block, identity-equal to it, passed `Verify`. -/
theorem commitBlock_cases (cr : Crypto) (keySet : KeySet) (chain : Chain) (block : Block) :
    (∃ err, commitBlock cr keySet chain block = (chain, some err)) ∨
      commitBlock cr keySet chain block = (chain, none) ∨
      ∃ p, chain.Proposed = some p ∧ block.IsSameAsBlock p = true ∧
        block.Verify cr keySet chain.LastBlock = none ∧
        commitBlock cr keySet chain block
          = ({ chain with Blocks := chain.Blocks ++ [p], Proposed := none }, none) := by
  cases hp : chain.Proposed with
  | none =>
    exact Or.inl ⟨_, commitBlock_not_proposed cr keySet chain block
      (fun p h => by rw [hp] at h; exact Option.noConfusion h)⟩
  | some p =>
    cases hs : block.IsSameAsBlock p with
    | false =>
      refine Or.inl ⟨_, commitBlock_not_proposed cr keySet chain block (fun q h => ?_)⟩
      rw [hp] at h
      cases h
      exact hs
    | true =>
      by_cases hd : ∃ tip, chain.LastBlock = some tip ∧ block.IsSameAsBlock tip = true
      · obtain ⟨tip, ht, hdup⟩ := hd
        exact Or.inr (Or.inl (commitBlock_duplicate cr keySet chain block p tip hp hs ht hdup))
      · have hfresh : ∀ tip, chain.LastBlock = some tip → block.IsSameAsBlock tip = false := by
          intro tip ht
          cases hx : block.IsSameAsBlock tip with
          | false => rfl
          | true => exact absurd ⟨tip, ht, hx⟩ hd
        have hc := commitBlock_fresh cr keySet chain block p hp hs hfresh
        cases hv : block.Verify cr keySet chain.LastBlock with
        | some err =>
          rw [hv] at hc
          exact Or.inl ⟨_, hc⟩
        | none =>
          rw [hv] at hc
          exact Or.inr (Or.inr ⟨p, rfl, hs, rfl, hc⟩)

/-- The chain after one job of the commit worker: as it was, as it was with the
proposal cleared, or with the staged proposal appended and cleared. -/
theorem CommitWorkerJob_chain_cases (cr : Crypto) (keySet : KeySet) (chain : Chain)
    (job : NewBlockJob) :
    (CommitWorkerJob cr keySet chain job).1.chain = chain ∨
      (CommitWorkerJob cr keySet chain job).1.chain = { chain with Proposed := none } ∨
      ∃ b p, job.Block = some b ∧ chain.Proposed = some p ∧ b.IsSameAsBlock p = true ∧
        b.Verify cr keySet chain.LastBlock = none ∧
        (CommitWorkerJob cr keySet chain job).1.chain
          = { chain with Blocks := chain.Blocks ++ [p], Proposed := none } := by
  cases hjob : job.Block with
  | none =>
    left
    unfold CommitWorkerJob
    rw [hjob]
  | some b =>
    rcases commitBlock_cases cr keySet chain b with ⟨err, hc⟩ | hc | ⟨p, hp, hs, hv, hc⟩
    · right; left
      unfold CommitWorkerJob
      rw [hjob]
      simp only [hc]
    · left
      unfold CommitWorkerJob
      rw [hjob]
      simp only [hc]
    · right; right
      refine ⟨b, p, rfl, hp, hs, hv, ?_⟩
      unfold CommitWorkerJob
      rw [hjob]
      simp only [hc]

theorem SetProposedBlock_chain_cases (c : Chain) (block : Block) :
    (c.SetProposedBlock block).1 = c ∨
      ((c.SetProposedBlock block).1.Blocks = c.Blocks ∧
        (c.SetProposedBlock block).1.Proposed = some block ∧
        ∀ tip, c.LastBlock = some tip → block.PrevID = tip.ID) := by
  unfold Chain.SetProposedBlock
  cases hl : c.LastBlock with
  | none =>
    by_cases hid : block.ID = genesisBlockID
    · right
      simp only [hid, ne_eq, not_true_eq_false, if_false]
      exact ⟨(stage_blocks c block).1, (stage_blocks c block).2.1,
        fun tip h => Option.noConfusion h⟩
    · left
      simp [hid]
  | some tip =>
    by_cases hid : tip.ID = block.PrevID
    · right
      simp only [hid, ne_eq, not_true_eq_false, if_false]
      refine ⟨(stage_blocks c block).1, (stage_blocks c block).2.1, fun tip' h => ?_⟩
      cases h
      exact hid.symm
    · left
      simp [hid]

theorem CommitProposedBlock_cases (cr : Crypto) (keySet : KeySet) (c : Chain)
    (r : Chain × List Event × Option Error) (h : c.CommitProposedBlock cr keySet = some r) :
    r.1 = c ∨ ∃ p, c.Proposed = some p ∧ p.Verify cr keySet c.LastBlock = none ∧
      r.1.Blocks = c.Blocks ++ [p] ∧ r.1.Proposed = none := by
  unfold Chain.CommitProposedBlock at h
  cases hp : c.Proposed with
  | none => simp [hp] at h
  | some p =>
    simp only [hp] at h
    cases hv : p.Verify cr keySet c.LastBlock with
    | some err =>
      simp only [hv] at h
      injection h with h
      left
      rw [← h]
    | none =>
      simp only [hv] at h
      right
      refine ⟨p, rfl, hv, ?_⟩
      cases hcc : c.CommittedChan with
      | none =>
        simp only [hcc] at h
        injection h with h
        rw [← h]
        exact ⟨rfl, rfl⟩
      | some ch =>
        simp only [hcc] at h
        injection h with h
        rw [← h]
        exact ⟨rfl, rfl⟩

/-- One operation appends nothing or one block; a block appended by an
operation other than `CommitProposedBlock` is appended by a job and is
identity-equal to the job's block. -/
theorem applyOp_appends (cr : Crypto) (keySet : KeySet) (w : Worker) (op : Op) :
    ∃ suffix, (applyOp cr keySet w op).chain.Blocks = w.chain.Blocks ++ suffix ∧
      suffix.length ≤ 1 ∧
      (op ≠ .commitProposed → suffix = [] ∨
        ∃ blockJob b p, op = .job blockJob ∧ blockJob.Block = some b ∧ suffix = [p] ∧
          b.IsSameAsBlock p = true) := by
  cases op with
  | setProposed block =>
    refine ⟨[], ?_, by simp, fun _ => Or.inl rfl⟩
    rcases SetProposedBlock_chain_cases w.chain block with h | h
    · simp [applyOp, h]
    · simp [applyOp, h.1]
  | getNextProposed n =>
    refine ⟨[], ?_, by simp, fun _ => Or.inl rfl⟩
    simp only [applyOp, Chain.GetNextProposed, List.append_nil]
    cases w.chain.ProposedChan <;> rfl
  | getNextCommitted n =>
    refine ⟨[], ?_, by simp, fun _ => Or.inl rfl⟩
    simp only [applyOp, Chain.GetNextCommitted, List.append_nil]
    cases w.chain.CommittedChan <;> rfl
  | commitProposed =>
    cases hr : w.chain.CommitProposedBlock cr keySet with
    | none => exact ⟨[], by simp [applyOp, hr], by simp, fun h => absurd rfl h⟩
    | some r =>
      rcases CommitProposedBlock_cases cr keySet w.chain r hr with h | ⟨p, _, _, hb, _⟩
      · exact ⟨[], by simp [applyOp, hr, h], by simp, fun h => absurd rfl h⟩
      · exact ⟨[p], by simp [applyOp, hr, hb], by simp, fun h => absurd rfl h⟩
  | job blockJob =>
    cases hpk : w.parked with
    | true => exact ⟨[], by simp [applyOp, hpk], by simp, fun _ => Or.inl rfl⟩
    | false =>
      rcases CommitWorkerJob_chain_cases cr keySet w.chain blockJob with
        h | h | ⟨b, p, hjob, _, hs, _, h⟩
      · exact ⟨[], by simp [applyOp, hpk, h], by simp, fun _ => Or.inl rfl⟩
      · exact ⟨[], by simp [applyOp, hpk, h], by simp, fun _ => Or.inl rfl⟩
      · exact ⟨[p], by simp [applyOp, hpk, h], by simp,
          fun _ => Or.inr ⟨blockJob, b, p, rfl, hjob, rfl, hs⟩⟩

theorem jobBlocks_sublist_cons (op : Op) (ops : List Op) :
    (jobBlocks ops).Sublist (jobBlocks (op :: ops)) := by
  cases op with
  | job blockJob =>
    cases hb : blockJob.Block with
    | none => simp [jobBlocks, hb]
    | some b => simp [jobBlocks, hb]
  | _ => simp [jobBlocks]

theorem runOps_cons (cr : Crypto) (keySet : KeySet) (w : Worker) (op : Op) (ops : List Op) :
    runOps cr keySet w (op :: ops) = runOps cr keySet (applyOp cr keySet w op) ops := rfl

/-- C12, append-only committed sequence: each operation (`SetProposedBlock`,
`GetNextProposed`, `GetNextCommitted`, `CommitProposedBlock`, the commit worker
on a job) leaves the committed sequence it found as the beginning of the one it
leaves and appends at most one block; over a list of operations the blocks
appended by jobs pair up, in order, with identity-equal blocks of a subsequence
of the jobs in the order they were dequeued. -/
theorem committed_append_only (cr : Crypto) (keySet : KeySet) (w : Worker) :
    (∀ op, ∃ suffix, (applyOp cr keySet w op).chain.Blocks = w.chain.Blocks ++ suffix ∧
      suffix.length ≤ 1) ∧
    (∀ ops, ∃ appended,
      (runOps cr keySet w ops).chain.Blocks = w.chain.Blocks ++ appended ∧
        appended.length ≤ ops.length ∧
        ((∀ op ∈ ops, op ≠ Op.commitProposed) →
          ∃ sub, sub.Sublist (jobBlocks ops) ∧
            List.Forall₂ (fun b a => b.IsSameAsBlock a = true) sub appended)) := by
  refine ⟨fun op => ?_, fun ops => ?_⟩
  · obtain ⟨suffix, h1, h2, _⟩ := applyOp_appends cr keySet w op
    exact ⟨suffix, h1, h2⟩
  · induction ops generalizing w with
    | nil => exact ⟨[], by simp [runOps], by simp, fun _ => ⟨[], by simp [jobBlocks], .nil⟩⟩
    | cons op ops ih =>
      obtain ⟨suffix, h1, h2, h3⟩ := applyOp_appends cr keySet w op
      obtain ⟨appended, g1, g2, g3⟩ := ih (applyOp cr keySet w op)
      refine ⟨suffix ++ appended, ?_, ?_, fun hno => ?_⟩
      · rw [runOps_cons, g1, h1, List.append_assoc]
      · simp only [List.length_append, List.length_cons]
        omega
      · obtain ⟨sub, hsub, hall⟩ := g3 (fun o ho => hno o (List.mem_cons_of_mem _ ho))
        rcases h3 (hno op (List.mem_cons_self _ _)) with hs | ⟨blockJob, b, p, hop, hjob, hs, hsame⟩
        · subst hs
          exact ⟨sub, hsub.trans (jobBlocks_sublist_cons op ops), hall⟩
        · subst hs hop
          refine ⟨b :: sub, ?_, .cons hsame hall⟩
          simp only [jobBlocks, hjob]
          exact hsub.cons₂ b

theorem committed_append_only_witness :
    (runOps toyCrypto toyKeySet { chain := EmptyChain, parked := false } twoBlockRun).chain.Blocks
        = [genesisBlock, preparedBlock] ∧
      jobBlocks twoBlockRun = [genesisBlock, preparedBlock] ∧
      ∃ appended,
        (runOps toyCrypto toyKeySet { chain := EmptyChain, parked := false }
          twoBlockRun).chain.Blocks = EmptyChain.Blocks ++ appended ∧
        appended.length ≤ twoBlockRun.length :=
  ⟨rfl, rfl,
    match (committed_append_only toyCrypto toyKeySet
      { chain := EmptyChain, parked := false }).2 twoBlockRun with
    | ⟨appended, h1, h2, _⟩ => ⟨appended, h1, h2⟩⟩

theorem lastBlock_congr (c c' : Chain) (hb : c'.Blocks = c.Blocks) :
    c'.LastBlock = c.LastBlock := by
  rw [lastBlock_eq_getLast, lastBlock_eq_getLast, hb]

theorem emptyChain_linked (cr : Crypto) : EmptyChain.Linked cr := by
  refine ⟨fun g h => ?_, List.chain'_nil, fun p tip h _ => ?_⟩
  · exact Option.noConfusion h
  · exact Option.noConfusion h

/-- The invariant survives a change of the notification slots, and the
clearing of the proposal. -/
theorem linked_of_same_blocks (cr : Crypto) (c c' : Chain) (h : c.Linked cr)
    (hb : c'.Blocks = c.Blocks) (hp : c'.Proposed = c.Proposed ∨ c'.Proposed = none) :
    c'.Linked cr := by
  obtain ⟨h1, h2, h3⟩ := h
  refine ⟨by rw [hb]; exact h1, by rw [hb]; exact h2, fun p tip hp' ht => ?_⟩
  rw [lastBlock_congr c c' hb] at ht
  rcases hp with hp | hp
  · exact h3 p tip (hp ▸ hp') ht
  · rw [hp] at hp'
    exact Option.noConfusion hp'

/-- The invariant survives the staging of a block whose PrevID is the tip's
ID. -/
theorem linked_of_staged (cr : Crypto) (c c' : Chain) (block : Block) (h : c.Linked cr)
    (hb : c'.Blocks = c.Blocks) (hp : c'.Proposed = some block)
    (hl : ∀ tip, c.LastBlock = some tip → block.PrevID = tip.ID) : c'.Linked cr := by
  obtain ⟨h1, h2, _⟩ := h
  refine ⟨by rw [hb]; exact h1, by rw [hb]; exact h2, fun p tip hp' ht => ?_⟩
  rw [lastBlock_congr c c' hb] at ht
  rw [hp] at hp'
  cases hp'
  exact hl tip ht

/-- The invariant survives the appending of a block that has the genesis ID on
an empty chain and is linked to the tip otherwise, with the proposal cleared. -/
theorem linked_of_appended (cr : Crypto) (c c' : Chain) (p : Block) (h : c.Linked cr)
    (hb : c'.Blocks = c.Blocks ++ [p]) (hp : c'.Proposed = none)
    (hg : c.LastBlock = none → p.ID = genesisBlockID)
    (hl : ∀ tip, c.LastBlock = some tip → Block.LinkedTo cr tip p) : c'.Linked cr := by
  obtain ⟨h1, h2, _⟩ := h
  refine ⟨fun g hgd => ?_, ?_, fun q tip hq _ => ?_⟩
  · rw [hb, List.head?_append] at hgd
    cases hh : c.Blocks.head? with
    | some g' =>
      rw [hh] at hgd
      cases hgd
      exact h1 g hh
    | none =>
      rw [hh] at hgd
      cases hgd
      have hnil : c.Blocks = [] := List.head?_eq_none_iff.1 hh
      exact hg ((lastBlock_eq_none_iff c).2 hnil)
  · rw [hb]
    refine List.Chain'.append h2 (List.chain'_singleton p) (fun x hx y hy => ?_)
    simp only [List.head?_cons, Option.mem_def, Option.some.injEq] at hy
    subst hy
    exact hl x (by rw [lastBlock_eq_getLast]; exact hx)
  · rw [hp] at hq
    exact Option.noConfusion hq

/-- A block that passes `Verify` against the tip has the genesis ID when there
is no tip and the encoded digest of the tip's ciphertext as its ID otherwise. -/
theorem verify_id (cr : Crypto) (keySet : KeySet) (b : Block) (last : Option Block)
    (h : b.Verify cr keySet last = none) :
    (last = none → b.ID = genesisBlockID) ∧
      (∀ tip, last = some tip → b.ID = cr.base64URLEncode (cr.sha256 tip.Data.Data)) := by
  refine ⟨fun hl => ?_, fun tip hl => ?_⟩
  · subst hl
    obtain ⟨_, _, _, hid, _⟩ := (verify_none_iff cr b keySet).1 h
    exact hid
  · subst hl
    obtain ⟨_, _, hid, _⟩ := (verify_some_iff cr b tip keySet).1 h
    exact hid

theorem applyOp_linked (cr : Crypto) (keySet : KeySet) (w : Worker) (op : Op)
    (h : w.chain.Linked cr) : (applyOp cr keySet w op).chain.Linked cr := by
  cases op with
  | setProposed block =>
    rcases SetProposedBlock_chain_cases w.chain block with hc | ⟨hb, hp, hl⟩
    · simp only [applyOp, hc]
      exact h
    · exact linked_of_staged cr w.chain _ block h hb hp hl
  | getNextProposed n =>
    refine linked_of_same_blocks cr w.chain _ h ?_ (Or.inl ?_) <;>
      · simp only [applyOp, Chain.GetNextProposed]
        cases w.chain.ProposedChan <;> rfl
  | getNextCommitted n =>
    refine linked_of_same_blocks cr w.chain _ h ?_ (Or.inl ?_) <;>
      · simp only [applyOp, Chain.GetNextCommitted]
        cases w.chain.CommittedChan <;> rfl
  | commitProposed =>
    cases hr : w.chain.CommitProposedBlock cr keySet with
    | none =>
      simp only [applyOp, hr]
      exact h
    | some r =>
      rcases CommitProposedBlock_cases cr keySet w.chain r hr with hc | ⟨p, hp, hv, hb, hpn⟩
      · simp only [applyOp, hr, hc]
        exact h
      · have hid := verify_id cr keySet p w.chain.LastBlock hv
        simp only [applyOp, hr]
        exact linked_of_appended cr w.chain r.1 p h hb hpn hid.1
          (fun tip ht => ⟨hid.2 tip ht, h.2.2 p tip hp ht⟩)
  | job blockJob =>
    cases hpk : w.parked with
    | true =>
      simp only [applyOp, hpk, if_true]
      exact h
    | false =>
      simp only [applyOp, hpk, Bool.false_eq_true, if_false]
      rcases CommitWorkerJob_chain_cases cr keySet w.chain blockJob with
        hc | hc | ⟨b, p, _, hp, hs, hv, hc⟩
      · rw [hc]
        exact h
      · rw [hc]
        exact linked_of_same_blocks cr w.chain _ h rfl (Or.inr rfl)
      · rw [hc]
        have hid := verify_id cr keySet b w.chain.LastBlock hv
        have hsame := (isSameAsBlock_iff b p).1 hs
        refine linked_of_appended cr w.chain _ p h rfl rfl
          (fun hl => hsame.1 ▸ hid.1 hl)
          (fun tip ht => ⟨hsame.1 ▸ hid.2 tip ht, h.2.2 p tip hp ht⟩)

/-- C15, chain linkage invariant: in every state reached from `EmptyChain` by a
sequence of `SetProposedBlock` calls and commit-worker job steps (and of
`GetNextProposed`, `GetNextCommitted` and `CommitProposedBlock` calls), the
first committed block has the genesis sentinel ID, every later committed block
has the encoded SHA-256 digest of the ciphertext of the block before it as its
ID and that block's ID as its PrevID, and a staged proposal on a non-empty chain
has the tip's ID as its PrevID. -/
theorem reachable_chain_linked (cr : Crypto) (keySet : KeySet) (ops : List Op) :
    (runOps cr keySet { chain := EmptyChain, parked := false } ops).chain.Linked cr := by
  suffices hgen : ∀ w : Worker, w.chain.Linked cr → (runOps cr keySet w ops).chain.Linked cr from
    hgen _ (emptyChain_linked cr)
  induction ops with
  | nil => exact fun w h => h
  | cons op ops ih =>
    intro w h
    rw [runOps_cons]
    exact ih _ (applyOp_linked cr keySet w op h)

theorem reachable_chain_linked_witness :
    (runOps toyCrypto toyKeySet { chain := EmptyChain, parked := false } twoBlockRun).chain.Blocks
        = [genesisBlock, preparedBlock] ∧
      Block.LinkedTo toyCrypto genesisBlock preparedBlock ∧
      (runOps toyCrypto toyKeySet { chain := EmptyChain, parked := false }
        twoBlockRun).chain.Linked toyCrypto :=
  ⟨rfl, ⟨rfl, rfl⟩, reachable_chain_linked toyCrypto toyKeySet twoBlockRun⟩

/-! ## Theorems: jobs submitted through AddNewBlock -/

theorem SetProposedBlock_accepted (c : Chain) (block : Block)
    (hg : c.LastBlock = none → block.ID = genesisBlockID)
    (hl : ∀ tip, c.LastBlock = some tip → block.PrevID = tip.ID) :
    (c.SetProposedBlock block).1 = (c.stage block).1 := by
  unfold Chain.SetProposedBlock
  cases hlast : c.LastBlock with
  | none => simp [hg hlast]
  | some tip => simp [(hl tip hlast).symm]

theorem isSameAsBlock_self (b : Block) : b.IsSameAsBlock b = true :=
  (isSameAsBlock_iff b b).2 ⟨rfl, rfl, rfl⟩

/-- A block that is staged on a chain it is well formed for, and whose job is
then dequeued by a worker with a committed-notification slot installed, is
appended; the slot stays installed and the worker goes on. -/
theorem stage_then_job (cr : Crypto) (keySet : KeySet) (w : Worker) (ch : Nat) (b : Block)
    (errChan : Nat) (hslot : w.chain.CommittedChan = some ch) (hpark : w.parked = false)
    (hver : b.Verify cr keySet w.chain.LastBlock = none)
    (hl : ∀ tip, w.chain.LastBlock = some tip → b.PrevID = tip.ID ∧ b.IsSameAsBlock tip = false) :
    (applyOp cr keySet (applyOp cr keySet w (.setProposed b))
        (.job (Chain.AddNewBlock (some b) errChan))).chain.Blocks = w.chain.Blocks ++ [b] ∧
      (applyOp cr keySet (applyOp cr keySet w (.setProposed b))
        (.job (Chain.AddNewBlock (some b) errChan))).chain.CommittedChan = some ch ∧
      (applyOp cr keySet (applyOp cr keySet w (.setProposed b))
        (.job (Chain.AddNewBlock (some b) errChan))).parked = false := by
  have hstage := SetProposedBlock_accepted w.chain b
    (fun h => (verify_id cr keySet b _ hver).1 h) (fun tip h => (hl tip h).1)
  obtain ⟨hb, hp, hcc⟩ := stage_blocks w.chain b
  have hlast : (w.chain.stage b).1.LastBlock = w.chain.LastBlock :=
    lastBlock_congr w.chain _ hb
  have hc := commitBlock_fresh cr keySet (w.chain.stage b).1 b b hp (isSameAsBlock_self b)
    (fun tip h => (hl tip (hlast ▸ h)).2)
  rw [hlast, hver] at hc
  simp only [applyOp, hpark, hstage, Bool.false_eq_true, if_false]
  unfold CommitWorkerJob
  simp only [Chain.AddNewBlock, hc, sendCommitted, hcc, hslot, hb]
  exact ⟨trivial, trivial, trivial⟩

/-- With nothing staged the commit worker appends nothing, whatever jobs it
dequeues. -/
theorem CommitWorker_nothing_staged (cr : Crypto) (keySet : KeySet) (jobs : List NewBlockJob)
    (w : Worker) (hp : w.chain.Proposed = none) :
    (CommitWorker cr keySet w jobs).1.chain.Blocks = w.chain.Blocks ∧
      (CommitWorker cr keySet w jobs).1.chain.Proposed = none := by
  induction jobs generalizing w with
  | nil => exact ⟨rfl, hp⟩
  | cons job jobs ih =>
    unfold CommitWorker
    cases hpk : w.parked with
    | true => exact ⟨rfl, hp⟩
    | false =>
      simp only [Bool.false_eq_true, if_false]
      rcases CommitWorkerJob_chain_cases cr keySet w.chain job with
        hc | hc | ⟨b, p, _, hp', _, _, _⟩
      · have := ih (CommitWorkerJob cr keySet w.chain job).1 (by rw [hc]; exact hp)
        rw [hc] at this
        exact this
      · have := ih (CommitWorkerJob cr keySet w.chain job).1 (by rw [hc])
        rw [hc] at this
        exact this
      · rw [hp] at hp'
        exact Option.noConfusion hp'

/-- C13 as stated fails: the genesis block and the block prepared on it are
well formed and sequential, and the jobs `AddNewBlock` queues for them, dequeued
in that order by a worker with a notification slot installed, commit neither
with nothing staged and only the first with the first staged; dequeued in the
other order they commit neither; and `CommitProposedBlock` appends to the
committed sequence outside the worker. -/
theorem checked_jobs_not_all_committed :
    WellFormedAfter toyCrypto toyKeySet none [genesisBlock, preparedBlock] ∧
      (CommitWorker toyCrypto toyKeySet { chain := watchedChain, parked := false }
        (checkedJobs [genesisBlock, preparedBlock] 1)).1.chain.Blocks = [] ∧
      (CommitWorker toyCrypto toyKeySet
        { chain := (watchedChain.SetProposedBlock genesisBlock).1, parked := false }
        (checkedJobs [genesisBlock, preparedBlock] 1)).1.chain.Blocks = [genesisBlock] ∧
      (CommitWorker toyCrypto toyKeySet
        { chain := (watchedChain.SetProposedBlock genesisBlock).1, parked := false }
        (checkedJobs [genesisBlock, preparedBlock] 1).reverse).1.chain.Blocks = [] ∧
      ((watchedChain.SetProposedBlock genesisBlock).1.CommitProposedBlock toyCrypto toyKeySet).map
        (fun r => r.1.Blocks) = some [genesisBlock] := by
  refine ⟨⟨rfl, fun tip h => Option.noConfusion h, rfl, fun tip h => ?_, trivial⟩,
    rfl, rfl, rfl, rfl⟩
  cases h
  exact ⟨rfl, rfl⟩

/-- C13, amended: when the blocks of N well-formed sequential jobs submitted
through `AddNewBlock` are each staged by `SetProposedBlock` before the commit
worker dequeues the block's job, and a committed-notification slot is
installed, the committed sequence ends up as the old sequence followed by all N
blocks in dequeue order, each appended once; with nothing staged the worker
appends nothing, whatever jobs it dequeues. -/
theorem staged_jobs_commit_in_order (cr : Crypto) (keySet : KeySet) (w : Worker) (ch : Nat)
    (blocks : List Block) (errChan : Nat) (hslot : w.chain.CommittedChan = some ch)
    (hpark : w.parked = false)
    (hwf : WellFormedAfter cr keySet w.chain.LastBlock blocks) :
    (runOps cr keySet w (stagedRun blocks errChan)).chain.Blocks = w.chain.Blocks ++ blocks ∧
      (∀ jobs, w.chain.Proposed = none →
        (CommitWorker cr keySet w jobs).1.chain.Blocks = w.chain.Blocks) := by
  refine ⟨?_, fun jobs hp => (CommitWorker_nothing_staged cr keySet jobs w hp).1⟩
  induction blocks generalizing w errChan with
  | nil => simp [stagedRun, runOps]
  | cons b bs ih =>
    obtain ⟨hver, hl, hrest⟩ := hwf
    obtain ⟨hb, hcc, hpk⟩ := stage_then_job cr keySet w ch b errChan hslot hpark hver hl
    have hlast : (applyOp cr keySet (applyOp cr keySet w (.setProposed b))
        (.job (Chain.AddNewBlock (some b) errChan))).chain.LastBlock = some b := by
      rw [lastBlock_eq_getLast, hb]
      simp
    have := ih _ (errChan + 1) hcc hpk (by rw [hlast]; exact hrest)
    simp only [stagedRun, runOps_cons]
    rw [this, hb, List.append_assoc]
    rfl

theorem staged_jobs_commit_in_order_witness :
    (runOps toyCrypto toyKeySet { chain := watchedChain, parked := false }
        (stagedRun [genesisBlock, preparedBlock] 1)).chain.Blocks
        = watchedChain.Blocks ++ [genesisBlock, preparedBlock] ∧
      stagedRun [genesisBlock, preparedBlock] 1
        = [.setProposed genesisBlock, .job (Chain.AddNewBlock (some genesisBlock) 1),
            .setProposed preparedBlock, .job (Chain.AddNewBlock (some preparedBlock) 2)] :=
  ⟨(staged_jobs_commit_in_order toyCrypto toyKeySet { chain := watchedChain, parked := false } 9
      [genesisBlock, preparedBlock] 1 rfl rfl
      ⟨rfl, fun _ h => Option.noConfusion h, rfl,
        fun _ h => Option.some.inj h ▸ ⟨rfl, rfl⟩, trivial⟩).1,
    rfl⟩

end Astrocache
